import Mathlib

/-!
Shallow embedding of the BloomWatch forecast core (forecast.js, app.js).

Conventions of the embedding:
* Calendar dates are modelled as integer day numbers (days since 1970-01-01
  UTC), exactly the quantity a JS `Date` stores (divided by 86400000 ms).
  Conversion between day numbers and civil (year, month, day) triples models
  the proleptic Gregorian calendar that ECMAScript UTC accessors specify.
* Numbers are modelled as exact rationals.  The transcendental functions
  Math.sin, Math.cos and Math.sqrt are abstracted as function parameters
  (sinF, cosF, sqrtF), since the structural claims under study do not depend
  on their values.
* JS `null` / missing values are modelled with `Option`.
* A thrown JS `Error` is modelled with `Except String`.
-/

/-- Civil calendar date: year, month (1-12), day of month. -/
structure Civil where
  year : Int
  month : Int
  day : Int
deriving DecidableEq, Repr

/-- Day number of a civil date (days since 1970-01-01), proleptic Gregorian.
The day component may be out of the month's range; the date is normalised
exactly as JS Date.setUTCDate does (the expression is linear in the day). -/
def daysFromCivil (y m d : Int) : Int :=
  let y' := if m ≤ 2 then y - 1 else y
  let era := y' / 400
  let yoe := y' % 400
  let mp := if m ≤ 2 then m + 9 else m - 3
  let doy := (153 * mp + 2) / 5 + d - 1
  let doe := yoe * 365 + yoe / 4 - yoe / 100 + doy
  era * 146097 + doe - 719468

/-- Civil date of a day number (inverse of daysFromCivil on normalised dates). -/
def civilFromDays (t : Int) : Civil :=
  let z := t + 719468
  let era := z / 146097
  let doe := z % 146097
  let yoe := (doe - doe / 1460 + doe / 36524 - doe / 146096) / 365
  let y := yoe + era * 400
  let doy := doe - (365 * yoe + yoe / 4 - yoe / 100)
  let mp := (5 * doy + 2) / 153
  let d := doy - (153 * mp + 2) / 5 + 1
  let m := if mp < 10 then mp + 3 else mp - 9
  ⟨if m ≤ 2 then y + 1 else y, m, d⟩

/-- Two-digit years are mapped to 19xx by the Date.UTC constructor. -/
def jsFixYear (y : Int) : Int :=
  if 0 ≤ y ∧ y ≤ 99 then y + 1900 else y

/-- Day number produced by new Date(Date.UTC(y, m-1, d)) (month given 1-based
here; JS months are 0-based at the call sites, translated at use). -/
def jsDateUTC (y m d : Int) : Int :=
  daysFromCivil (jsFixYear y) m d

/-- Day-of-month UTC accessor of a JS date (getUTCDate). -/
def getUTCDate (t : Int) : Int :=
  (civilFromDays t).day

/-- Year UTC accessor of a JS date (getUTCFullYear). -/
def getUTCFullYear (t : Int) : Int :=
  (civilFromDays t).year

/-- Effect of d.setUTCDate(n): keep the civil year and month, set the day
component to n, renormalising overflow. -/
def setUTCDateOn (t n : Int) : Int :=
  let c := civilFromDays t
  daysFromCivil c.year c.month n

/-- Left-pad the decimal representation of a nonnegative integer to width w. -/
def padNat (w : Nat) (n : Int) : String :=
  let s := toString n.toNat
  let k := w - s.length
  String.mk (List.replicate k '0') ++ s

/-- ISO substring produced by d.toISOString().slice(0,10) for dates with
four-digit positive years. -/
def isoOfDay (t : Int) : String :=
  let c := civilFromDays t
  padNat 4 c.year ++ "-" ++ padNat 2 c.month ++ "-" ++ padNat 2 c.day

-- Sanity checks of the calendar model on known dates.
theorem daysFromCivil_epoch : daysFromCivil 1970 1 1 = 0 := by decide

theorem daysFromCivil_y2k : daysFromCivil 2000 3 1 = 11017 := by decide

theorem civilFromDays_epoch : civilFromDays 0 = ⟨1970, 1, 1⟩ := by decide

theorem civilFromDays_leap : civilFromDays 11016 = ⟨2000, 2, 29⟩ := by decide

theorem isoOfDay_example : isoOfDay 11017 = "2000-03-01" := by decide

/-- Recovery of the year-of-era inside civilFromDays for a civil January 1
(whose day-of-era offset within the March-based year is 306). -/
theorem yoeRecover (r : Int) (hr0 : 0 ≤ r) (hr1 : r < 400) :
    (r * 365 + r / 4 - r / 100 + 306 - (r * 365 + r / 4 - r / 100 + 306) / 1460 +
      (r * 365 + r / 4 - r / 100 + 306) / 36524 -
      (r * 365 + r / 4 - r / 100 + 306) / 146096) / 365 = r := by
  omega

set_option maxHeartbeats 1600000 in
/-- The civil conversions round-trip on every January 1. -/
theorem civil_jan1_roundtrip (y : Int) :
    civilFromDays (daysFromCivil y 1 1) = ⟨y, 1, 1⟩ := by
  have key : ∀ q r t : Int, 0 ≤ r → r < 400 → 400 * q + r = y - 1 →
      t + 719468 = q * 146097 + (r * 365 + r / 4 - r / 100 + 306) →
      civilFromDays t = ⟨y, 1, 1⟩ := by
    intro q r t hr0 hr1 hy ht
    have hdiv : (t + 719468) / 146097 = q := by omega
    have hmod : (t + 719468) % 146097 = r * 365 + r / 4 - r / 100 + 306 := by omega
    have hEq : Civil.mk (civilFromDays t).year (civilFromDays t).month
        (civilFromDays t).day = civilFromDays t := rfl
    rw [← hEq]
    have hy' : (civilFromDays t).year = y := by
      simp only [civilFromDays]
      rw [hmod, hdiv, yoeRecover r hr0 hr1]
      split_ifs <;> omega
    have hm : (civilFromDays t).month = 1 := by
      simp only [civilFromDays]
      rw [hmod, yoeRecover r hr0 hr1]
      split_ifs <;> omega
    have hd : (civilFromDays t).day = 1 := by
      simp only [civilFromDays]
      rw [hmod, yoeRecover r hr0 hr1]
      omega
    rw [hy', hm, hd]
  exact key ((y-1)/400) ((y-1)%400) _ (Int.emod_nonneg _ (by norm_num))
    (Int.emod_lt_of_pos _ (by norm_num)) (by omega)
    (by unfold daysFromCivil; norm_num)

/-- The day component of daysFromCivil is a pure offset: moving the day
argument moves the day number by the same amount (this is what makes JS
setUTCDate overflow normalisation work). -/
theorem daysFromCivil_day_linear (y m n : Int) :
    daysFromCivil y m n = daysFromCivil y m 1 + (n - 1) := by
  unfold daysFromCivil
  split_ifs <;> ring

namespace Utils

/-- Day number built by app.js Utils.doyToDate: new Date(Date.UTC(year, 0, 1))
followed by d.setUTCDate(doy). -/
def doyToDateDay (year doy : Int) : Int :=
  setUTCDateOn (jsDateUTC year 1 1) doy

/-- app.js Utils.doyToDate: the ISO string of the above day. -/
def doyToDate (year doy : Int) : String :=
  isoOfDay (doyToDateDay year doy)

end Utils

namespace ForecastManager

/-- Day number built by forecast.js ForecastManager._doyToDate:
new Date(Date.UTC(year, 0, 1)) then d.setUTCDate(d.getUTCDate() + (doy - 1)). -/
def doyToDateDay (year doy : Int) : Int :=
  let d := jsDateUTC year 1 1
  setUTCDateOn d (getUTCDate d + (doy - 1))

/-- forecast.js ForecastManager._doyToDate: the ISO string of the above day. -/
def doyToDate (year doy : Int) : String :=
  isoOfDay (doyToDateDay year doy)

end ForecastManager

/-- Both converters denote January doy of the fixed-up year, as a day number. -/
theorem doyToDateDay_eq_jan1_offset (year doy : Int) :
    Utils.doyToDateDay year doy = jsDateUTC year 1 1 + (doy - 1) ∧
    ForecastManager.doyToDateDay year doy = jsDateUTC year 1 1 + (doy - 1) := by
  have hc : civilFromDays (jsDateUTC year 1 1) = ⟨jsFixYear year, 1, 1⟩ :=
    civil_jan1_roundtrip (jsFixYear year)
  constructor
  · show setUTCDateOn (jsDateUTC year 1 1) doy = _
    unfold setUTCDateOn
    rw [hc]
    show daysFromCivil (jsFixYear year) 1 doy = _
    rw [daysFromCivil_day_linear]
    rfl
  · show setUTCDateOn (jsDateUTC year 1 1) (getUTCDate (jsDateUTC year 1 1) + (doy - 1)) = _
    unfold setUTCDateOn getUTCDate
    rw [hc]
    show daysFromCivil (jsFixYear year) 1 (Civil.day ⟨jsFixYear year, 1, 1⟩ + (doy - 1)) = _
    rw [daysFromCivil_day_linear]
    show daysFromCivil (jsFixYear year) 1 1 + (1 + (doy - 1) - 1) = _
    have : jsDateUTC year 1 1 = daysFromCivil (jsFixYear year) 1 1 := rfl
    omega

/-- One vegetation-index observation: ISO date (as day number) and value
(null modelled as none). -/
structure Obs where
  date : Int
  value : Option ℚ
deriving DecidableEq, Repr

/-- Weather aggregate attached to one observation date (tMean or pSum may be
null when the 17-day window held no valid reading for that metric). -/
structure Wx where
  tMean : Option ℚ
  pSum : Option ℚ
deriving DecidableEq, Repr

/-- Supervised dataset: parallel feature rows and targets (ds.x / ds.y). -/
structure Dataset where
  x : List (List ℚ)
  y : List ℚ
deriving DecidableEq, Repr

/-- One forecast output point. -/
structure ForecastPoint where
  date : Int
  value : Option ℚ
deriving DecidableEq, Repr

namespace ForecastManager

/-- forecast.js _doy: day-of-year of a date, via the difference from
Date.UTC(fullYear, 0, 0), that is day 0 of January. -/
def doy (t : Int) : Int :=
  t - jsDateUTC (getUTCFullYear t) 1 0

/-- Indexed entry of a matrix row list: A[r][c], undefined read as 0 (all
reachable reads in the source are in range). -/
def entry (A : List (List ℚ)) (r c : Nat) : ℚ :=
  (A.getD r []).getD c 0

/-- forecast.js _transpose. -/
def transpose (A : List (List ℚ)) : List (List ℚ) :=
  (List.range (A.headD []).length).map (fun i => A.map (fun r => r.getD i 0))

/-- forecast.js _matMul. -/
def matMul (A B : List (List ℚ)) : List (List ℚ) :=
  A.map (fun r =>
    (List.range (B.headD []).length).map (fun j =>
      ((List.range r.length).map (fun k => r.getD k 0 * (B.getD k []).getD j 0)).sum))

/-- Reduction r.reduce((s,_,j) => s + r[j]*v[j], 0) shared by _matVec and the
linear model's inference. -/
def dotRW (r v : List ℚ) : ℚ :=
  ((List.range r.length).map (fun j => r.getD j 0 * v.getD j 0)).sum

/-- forecast.js _matVec. -/
def matVec (A : List (List ℚ)) (v : List ℚ) : List ℚ :=
  A.map (fun r => dotRW r v)

/-- forecast.js _mse. -/
def mse (yhat y : List ℚ) : ℚ :=
  ((List.range y.length).map (fun i => (yhat.getD i 0 - y.getD i 0) ^ 2)).sum
    / (max 1 y.length : ℚ)

/-- Identity matrix built by _invSym. -/
def idMat (n : Nat) : List (List ℚ) :=
  (List.range n).map (fun i => (List.range n).map (fun j => if i = j then 1 else 0))

/-- Partial-pivot search of _invSym: start from p = i, replace p by r whenever
row r has a strictly larger absolute entry in column i. -/
def pivotSearch (A : List (List ℚ)) (i n : Nat) : Nat :=
  (List.range' (i + 1) (n - (i + 1))).foldl
    (fun p r => if |entry A r i| > |entry A p i| then r else p) i

/-- Swap rows i and p of a matrix (the JS destructuring swap). -/
def swapRows (A : List (List ℚ)) (i p : Nat) : List (List ℚ) :=
  let ri := A.getD i []
  let rp := A.getD p []
  (A.set i rp).set p ri

/-- Scale row i of a matrix by c (the invPivot normalisation loop). -/
def scaleRow (A : List (List ℚ)) (i : Nat) (c : ℚ) : List (List ℚ) :=
  A.set i ((A.getD i []).map (fun a => a * c))

/-- Elimination loop of _invSym at pivot column i applied to one of the two
matrices of the augmented pair: for every row r other than i, subtract
factors r times this matrix's row i.  The factor A[r][i] is read before row r
is overwritten and row i is never touched, so the row-parallel functional
update is equivalent to the JS in-place loop. -/
def elimRows (factors : Nat → ℚ) (M : List (List ℚ)) (i : Nat) : List (List ℚ) :=
  let pr := M.getD i []
  M.mapIdx (fun r row =>
    if r = i then row
    else row.mapIdx (fun j a => a - factors r * pr.getD j 0))

/-- One pivot step of _invSym on the augmented pair (A, I). -/
def invStep (n : Nat) (i : Nat) (AI : List (List ℚ) × List (List ℚ)) :
    Except String (List (List ℚ) × List (List ℚ)) :=
  let A := AI.fst
  let I := AI.snd
  let p := pivotSearch A i n
  if |entry A p i| < 1e-8 then .error "Singular matrix"
  else
    let A1 := swapRows A i p
    let I1 := swapRows I i p
    let invPivot := 1 / entry A1 i i
    let A2 := scaleRow A1 i invPivot
    let I2 := scaleRow I1 i invPivot
    let f := fun r => entry A2 r i
    .ok (elimRows f A2 i, elimRows f I2 i)

/-- Pivot loop of _invSym, i counting up with the remaining fuel explicit. -/
def invGo (n : Nat) : Nat → Nat → List (List ℚ) × List (List ℚ) →
    Except String (List (List ℚ))
  | 0, _, AI => .ok AI.snd
  | fuel + 1, i, AI =>
    match invStep n i AI with
    | .error e => .error e
    | .ok AI' => invGo n fuel (i + 1) AI'

/-- forecast.js _invSym: Gauss-Jordan inversion with partial pivoting;
throws "Singular matrix" when the best pivot magnitude is below 1e-8. -/
def invSym (M : List (List ℚ)) : Except String (List (List ℚ)) :=
  let n := M.length
  invGo n n 0 (M.map (fun r => r.map id), idMat n)

end ForecastManager

namespace ForecastManager

/-- Lookup in the byDate Map of _buildDataset.  The Map constructor keeps the
last pair for a duplicate key, and a stored null and a missing key are
indistinguishable at the call sites (both compare == null). -/
def byDateGet (viSeries : List Obs) (d : Int) : Option ℚ :=
  ((viSeries.filter (fun v => v.date = d)).getLast?).bind (fun o => o.value)

/-- Property access wxByDate[d] on the weather object, keys in insertion
order. -/
def lookupWx (wx : List (Int × Wx)) (d : Int) : Option Wx :=
  (wx.find? (fun e => e.fst = d)).map (fun e => e.snd)

/-- Rolling window helper roll(idx, 3) of _buildDataset: mean of the
non-null values among viSeries positions max(0, idx-2) .. idx, null if that
window holds no value. -/
def roll (viSeries : List Obs) (idx : Nat) : Option ℚ :=
  let s := idx + 1 - 3
  let arr := ((viSeries.take (idx + 1)).drop s).filterMap (fun v => v.value)
  if arr.isEmpty then none else some (arr.sum / (arr.length : ℚ))

/-- Date at index i of the series (in-range at every reachable call). -/
def dateAt (viSeries : List Obs) (i : Nat) : Int :=
  (viSeries.getD i ⟨0, none⟩).date

/-- Body of the _buildDataset loop at index i: the emitted (features, target)
sample, or none when any required field is null and the index is skipped.
sinF / cosF abstract x sin(2 pi x / 365) and its cosine twin, applied to
the day-of-year. -/
def sampleAt (sinF cosF : Int → ℚ) (viSeries : List Obs) (wx : List (Int × Wx))
    (i : Nat) : Option (List ℚ × ℚ) :=
  let d := dateAt viSeries i
  let v := byDateGet viSeries d
  let lag1 := byDateGet viSeries (dateAt viSeries (i - 1))
  let lag2 := byDateGet viSeries (dateAt viSeries (i - 2))
  let r7 := roll viSeries i
  let w := lookupWx wx d
  match v, lag1, lag2, r7, w.bind (fun u => u.tMean), w.bind (fun u => u.pSum) with
  | some v0, some l1, some l2, some r, some tM, some pS =>
    some ([l1, l2, r, sinF (doy d), cosF (doy d), tM, pS], v0)
  | _, _, _, _, _, _ => none

/-- forecast.js _buildDataset: loop i from 2 to length-1, pushing the sample
when every required field is present. -/
def buildDataset (sinF cosF : Int → ℚ) (viSeries : List Obs)
    (wx : List (Int × Wx)) : Dataset :=
  let samples := ((List.range viSeries.length).drop 2).filterMap
    (sampleAt sinF cosF viSeries wx)
  ⟨samples.map Prod.fst, samples.map Prod.snd⟩

/-- Column mean of _trainModel: mean of X.map(r => r[j]). -/
def colMean (X : List (List ℚ)) (j : Nat) : ℚ :=
  let col := X.map (fun r => r.getD j 0)
  col.sum / (col.length : ℚ)

/-- Column sample variance of _trainModel (denominator max(1, n-1)). -/
def colVar (X : List (List ℚ)) (j : Nat) : ℚ :=
  let col := X.map (fun r => r.getD j 0)
  let m := colMean X j
  (col.map (fun b => (b - m) ^ 2)).sum / (max 1 (col.length - 1) : ℚ)

/-- The || 1 floor applied to Math.sqrt of a variance: a zero (or NaN) square
root becomes 1. -/
def sigFloor (s0 : ℚ) : ℚ :=
  if s0 = 0 then 1 else s0

/-- Fitted linear fallback model of _trainModel: standardisation parameters,
weight vector and training RMSE. -/
structure LinModel where
  mu : List ℚ
  sig : List ℚ
  yMu : ℚ
  ySig : ℚ
  w : List ℚ
  rmse : ℚ
deriving DecidableEq, Repr

/-- Inference closure of the linear branch of _trainModel: standardise the
row with the stored training parameters, dot with w, un-standardise. -/
def inferLin (m : LinModel) (row : List ℚ) : ℚ :=
  let r := row.mapIdx (fun j v => (v - m.mu.getD j 0) / m.sig.getD j 0)
  dotRW r m.w * m.ySig + m.yMu

/-- Per-column means of _trainModel (mu). -/
def muOf (X : List (List ℚ)) : List ℚ :=
  (List.range (X.headD []).length).map (fun j => colMean X j)

/-- Per-column floored sample standard deviations of _trainModel (sig). -/
def sigOf (sqrtF : ℚ → ℚ) (X : List (List ℚ)) : List ℚ :=
  (List.range (X.headD []).length).map (fun j => sigFloor (sqrtF (colVar X j)))

/-- Standardised feature matrix of _trainModel (xN). -/
def stdX (sqrtF : ℚ → ℚ) (X : List (List ℚ)) : List (List ℚ) :=
  X.map (fun r => r.mapIdx (fun j v => (v - (muOf X).getD j 0) / (sigOf sqrtF X).getD j 0))

/-- Target mean of _trainModel (yMu). -/
def yMuOf (Y : List ℚ) : ℚ :=
  Y.sum / (Y.length : ℚ)

/-- Floored target sample standard deviation of _trainModel (ySig). -/
def ySigOf (sqrtF : ℚ → ℚ) (Y : List ℚ) : ℚ :=
  sigFloor (sqrtF ((Y.map (fun v => (v - yMuOf Y) ^ 2)).sum / (max 1 (Y.length - 1) : ℚ)))

/-- Standardised target vector of _trainModel (yN). -/
def stdY (sqrtF : ℚ → ℚ) (Y : List ℚ) : List ℚ :=
  Y.map (fun v => (v - yMuOf Y) / ySigOf sqrtF Y)

/-- The normal matrix XtX of the linear branch, on standardised data. -/
def trainXTX (sqrtF : ℚ → ℚ) (ds : Dataset) : List (List ℚ) :=
  matMul (transpose (stdX sqrtF ds.x)) (stdX sqrtF ds.x)

/-- The moment vector Xty of the linear branch, on standardised data. -/
def trainXTy (sqrtF : ℚ → ℚ) (ds : Dataset) : List ℚ :=
  matVec (transpose (stdX sqrtF ds.x)) (stdY sqrtF ds.y)

/-- forecast.js _trainModel, linear branch (global.tf absent).  Math.sqrt is
abstracted as sqrtF; the lets of the source are the named definitions
above. -/
def trainModelLin (sqrtF : ℚ → ℚ) (ds : Dataset) : Except String LinModel :=
  match invSym (trainXTX sqrtF ds) with
  | .error e => .error e
  | .ok XTXinv =>
    let w := matVec XTXinv (trainXTy sqrtF ds)
    let rmse := sqrtF (mse (matVec (stdX sqrtF ds.x) w) (stdY sqrtF ds.y)) * ySigOf sqrtF ds.y
    .ok ⟨muOf ds.x, sigOf sqrtF ds.x, yMuOf ds.y, ySigOf sqrtF ds.y, w, rmse⟩

end ForecastManager

namespace ForecastManager

/-- Constant weather proxies of _forecastNext30Days (lines 249-254): over
the last min(30, available) keys of the weather object, the mean of the
non-null tMean values and the mean of the non-null pSum values, each
defaulting to 10 when no value survives the filter. -/
def weatherProxies (wx : List (Int × Wx)) : ℚ × ℚ :=
  let keys := wx.map Prod.fst
  let take := keys.drop (keys.length - min 30 keys.length)
  let tArr := take.filterMap (fun d => (lookupWx wx d).bind (fun u => u.tMean))
  let pArr := take.filterMap (fun d => (lookupWx wx d).bind (fun u => u.pSum))
  (if tArr.isEmpty then 10 else tArr.sum / (tArr.length : ℚ),
   if pArr.isEmpty then 10 else pArr.sum / (pArr.length : ℚ))

/-- lag1 read of the forecast loop: hist[len-1]?.value ?? null. -/
def lastValue (hist : List Obs) : Option ℚ :=
  hist.getLast?.bind (fun o => o.value)

/-- lag2 read of the forecast loop: hist[len-2]?.value ?? null. -/
def secondLastValue (hist : List Obs) : Option ℚ :=
  if hist.length < 2 then none
  else (hist.getD (hist.length - 2) ⟨0, none⟩).value

/-- r3 read of the forecast loop: mean of the non-null values among the last
(up to) three history entries, null when none survive. -/
def rollTail3 (hist : List Obs) : Option ℚ :=
  let arr := (hist.drop (hist.length - 3)).filterMap (fun v => v.value)
  if arr.isEmpty then none else some (arr.sum / (arr.length : ℚ))

/-- The 30-iteration loop of _forecastNext30Days, carrying the rolling
history and the current date; returns the emitted points and the final
history.  model abstracts the fitted model's infer closure. -/
def forecastLoop (model : List ℚ → ℚ) (sinF cosF : Int → ℚ) (tConst pConst : ℚ) :
    Nat → List Obs → Int → List ForecastPoint × List Obs
  | 0, hist, _ => ([], hist)
  | n + 1, hist, d =>
    let iso := d + 1
    match lastValue hist, secondLastValue hist, rollTail3 hist with
    | some l1, some l2, some r =>
      let f := [l1, l2, r, sinF (doy iso), cosF (doy iso), tConst, pConst]
      let vhat := model f
      let clipped := max (-0.1) (min 1.0 vhat)
      let rest := forecastLoop model sinF cosF tConst pConst n
        (hist ++ [⟨iso, some clipped⟩]) iso
      (⟨iso, some clipped⟩ :: rest.fst, rest.snd)
    | _, _, _ =>
      let rest := forecastLoop model sinF cosF tConst pConst n hist iso
      (⟨iso, none⟩ :: rest.fst, rest.snd)

/-- forecast.js _forecastNext30Days including its final rolling history
(second component); none models the TypeError thrown on an empty history
when hist[hist.length-1].date is read. -/
def forecastNext30DaysFull (model : List ℚ → ℚ) (sinF cosF : Int → ℚ)
    (viSeries : List Obs) (wx : List (Int × Wx)) :
    Option (List ForecastPoint × List Obs) :=
  match viSeries.getLast? with
  | none => none
  | some last =>
    let tp := weatherProxies wx
    some (forecastLoop model sinF cosF tp.fst tp.snd 30 viSeries last.date)

/-- forecast.js _forecastNext30Days: just the emitted points. -/
def forecastNext30Days (model : List ℚ → ℚ) (sinF cosF : Int → ℚ)
    (viSeries : List Obs) (wx : List (Int × Wx)) : Option (List ForecastPoint) :=
  (forecastNext30DaysFull model sinF cosF viSeries wx).map Prod.fst

/-- Epochs read of run() (line 23): Math.max(20, Math.min(1000,
parseInt(input value or the default 120))); none models a missing element or
an empty value string, for which the literal default 120 is parsed. -/
def clampEpochs (raw : Option Int) : Int :=
  max 20 (min 1000 (raw.getD 120))

/-- Learning-rate read of run() (line 24): Math.max(0.001, Math.min(0.1,
parseFloat(input value or the default 0.01))). -/
def clampLearningRate (raw : Option ℚ) : ℚ :=
  max 0.001 (min 0.1 (raw.getD 0.01))

/-- Observable outcome of one run() call (stats banner states). -/
inductive RunOutcome where
  | noHistory
  | insufficientSamples
  | failed (msg : String)
  | done (fc : List ForecastPoint) (samples : Nat)
deriving DecidableEq, Repr

/-- forecast.js run() steps 1-6 after the network fetches, in the
environment without a tf backend (linear fallback): empty history aborts,
fewer than 24 samples aborts, a training error is caught and surfaced as a
Failed banner, otherwise the 30-day forecast is produced. -/
def runCoreLin (sqrtF : ℚ → ℚ) (sinF cosF : Int → ℚ) (viSeries : List Obs)
    (wx : List (Int × Wx)) : RunOutcome :=
  if viSeries.isEmpty then .noHistory
  else
    let ds := buildDataset sinF cosF viSeries wx
    if ds.x.length < 24 then .insufficientSamples
    else
      match trainModelLin sqrtF ds with
      | .error e => .failed e
      | .ok m =>
        match forecastNext30Days (inferLin m) sinF cosF viSeries wx with
        | none => .failed "TypeError"
        | some fc => .done fc ds.x.length

end ForecastManager

open ForecastManager

/-- Claim C7: for every user-supplied configuration input, the epochs value
used for training lies in the closed interval 20..1000 and the learning rate
lies in the closed interval 0.001..0.1 (out-of-range inputs are clamped to
the nearest bound). -/
theorem C7_config_clamped (e : Option Int) (l : Option ℚ) :
    20 ≤ clampEpochs e ∧ clampEpochs e ≤ 1000 ∧
    (0.001 : ℚ) ≤ clampLearningRate l ∧ clampLearningRate l ≤ 0.1 := by
  refine ⟨le_max_left _ _, max_le (by norm_num) (min_le_left _ _),
    le_max_left _ _, max_le (by norm_num) (min_le_left _ _)⟩

/-- Claim C10: the two day-of-year converters agree for every year and every
day-of-year at least 1, producing the ISO date of the doy-th day of that
year, so the YYYY-DOY branch of _toISO does not depend on whether the global
Utils helper is present. -/
theorem C10_doyToDate_equiv (year doy : Int) (h : 1 ≤ doy) :
    Utils.doyToDate year doy = ForecastManager.doyToDate year doy ∧
    Utils.doyToDateDay year doy = ForecastManager.doyToDateDay year doy ∧
    Utils.doyToDateDay year doy = jsDateUTC year 1 1 + (doy - 1) := by
  obtain ⟨h1, h2⟩ := doyToDateDay_eq_jan1_offset year doy
  refine ⟨?_, h1.trans h2.symm, h1⟩
  unfold Utils.doyToDate ForecastManager.doyToDate
  rw [h1, h2]

/-- Witness for C10 at year 2021, day-of-year 60 (2021-03-01). -/
theorem C10_doyToDate_equiv_witness :
    (1 : Int) ≤ 60 ∧
    (Utils.doyToDate 2021 60 = ForecastManager.doyToDate 2021 60 ∧
     Utils.doyToDateDay 2021 60 = ForecastManager.doyToDateDay 2021 60 ∧
     Utils.doyToDateDay 2021 60 = jsDateUTC 2021 1 1 + (60 - 1)) :=
  ⟨by norm_num, C10_doyToDate_equiv 2021 60 (by norm_num)⟩

/-- Mean of a list with a default for the empty list (the shape both weather
proxies take). -/
def meanOr (dflt : ℚ) (l : List ℚ) : ℚ :=
  if l.isEmpty then dflt else l.sum / (l.length : ℚ)

namespace ForecastManager

/-- Unfolding step for object lookup on a cons cell. -/
theorem lookupWx_cons (hd : Int × Wx) (tl : List (Int × Wx)) (d : Int) :
    lookupWx (hd :: tl) d = if hd.fst = d then some hd.snd else lookupWx tl d := by
  unfold lookupWx
  rw [List.find?_cons]
  split_ifs with h
  · simp [h]
  · simp [h]

/-- With pairwise distinct keys, looking an entry's own key up in the object
returns that entry's value. -/
theorem lookupWx_self (wx : List (Int × Wx)) (h : (wx.map Prod.fst).Nodup) :
    ∀ e ∈ wx, lookupWx wx e.fst = some e.snd := by
  induction wx with
  | nil => intro e he; cases he
  | cons hd tl ih =>
    intro e he
    rw [List.map_cons, List.nodup_cons] at h
    rw [lookupWx_cons]
    rcases List.mem_cons.mp he with he' | he'
    · rw [he']; simp
    · have hne : hd.fst ≠ e.fst := fun hc =>
        h.1 (hc ▸ List.mem_map.mpr ⟨e, he', rfl⟩)
      rw [if_neg hne]
      exact ih h.2 e he'
end ForecastManager

/-- Claim C2, counterexample to the stated form: on a weather mapping whose
two recent dates carry precipitation totals 2 and 4, the precipitation proxy
is not their sum 6 (the code produces their mean 3). -/
theorem C2_counterexample :
    (weatherProxies [(0, ⟨some 1, some 2⟩), (1, ⟨some 3, some 4⟩)]).snd = 3 ∧
    (weatherProxies [(0, ⟨some 1, some 2⟩), (1, ⟨some 3, some 4⟩)]).snd ≠ 2 + 4 := by
  constructor
  · with_unfolding_all rfl
  · with_unfolding_all decide

/-- Claim C2 (amended): for a weather mapping with distinct dates, both
proxies are computed once from the most recent min(30, available) entries:
the temperature proxy is the mean of the non-absent per-date mean
temperatures and the precipitation proxy is the MEAN (not the sum) of the
non-absent per-date precipitation totals, each defaulting to 10 when no
valid value exists among those entries. -/
theorem C2_weather_proxies_means (wx : List (Int × Wx))
    (h : (wx.map Prod.fst).Nodup) :
    weatherProxies wx =
      (meanOr 10 ((wx.drop (wx.length - min 30 wx.length)).filterMap
          (fun e => e.snd.tMean)),
       meanOr 10 ((wx.drop (wx.length - min 30 wx.length)).filterMap
          (fun e => e.snd.pSum))) := by
  dsimp only [weatherProxies, meanOr]
  have hk : (wx.map Prod.fst).length = wx.length := List.length_map _ _
  rw [hk]
  have hdrop : (wx.map Prod.fst).drop (wx.length - min 30 wx.length)
      = (wx.drop (wx.length - min 30 wx.length)).map Prod.fst :=
    (List.map_drop _ _ _).symm
  rw [hdrop, List.filterMap_map, List.filterMap_map]
  have ht : (wx.drop (wx.length - min 30 wx.length)).filterMap
      ((fun d => (lookupWx wx d).bind (fun u => u.tMean)) ∘ Prod.fst)
      = (wx.drop (wx.length - min 30 wx.length)).filterMap (fun e => e.snd.tMean) := by
    apply List.filterMap_congr
    intro e he
    have : lookupWx wx e.fst = some e.snd :=
      ForecastManager.lookupWx_self wx h e (List.drop_subset _ _ he)
    simp [Function.comp, this]
  have hp : (wx.drop (wx.length - min 30 wx.length)).filterMap
      ((fun d => (lookupWx wx d).bind (fun u => u.pSum)) ∘ Prod.fst)
      = (wx.drop (wx.length - min 30 wx.length)).filterMap (fun e => e.snd.pSum) := by
    apply List.filterMap_congr
    intro e he
    have : lookupWx wx e.fst = some e.snd :=
      ForecastManager.lookupWx_self wx h e (List.drop_subset _ _ he)
    simp [Function.comp, this]
  rw [ht, hp]

/-- Witness for C2 on a concrete two-entry mapping with partially absent
weather. -/
theorem C2_weather_proxies_means_witness :
    weatherProxies [((5 : Int), (⟨none, some 2⟩ : Wx)), (6, ⟨some 1, none⟩)] =
      (meanOr 10 (([((5 : Int), (⟨none, some 2⟩ : Wx)), (6, ⟨some 1, none⟩)].drop
          (([((5 : Int), (⟨none, some 2⟩ : Wx)), (6, ⟨some 1, none⟩)].length) -
            min 30 ([((5 : Int), (⟨none, some 2⟩ : Wx)), (6, ⟨some 1, none⟩)].length))).filterMap
          (fun e => e.snd.tMean)),
       meanOr 10 (([((5 : Int), (⟨none, some 2⟩ : Wx)), (6, ⟨some 1, none⟩)].drop
          (([((5 : Int), (⟨none, some 2⟩ : Wx)), (6, ⟨some 1, none⟩)].length) -
            min 30 ([((5 : Int), (⟨none, some 2⟩ : Wx)), (6, ⟨some 1, none⟩)].length))).filterMap
          (fun e => e.snd.pSum))) :=
  C2_weather_proxies_means _ (by decide)

namespace ForecastManager

theorem forecastLoop_fst_length (model : List ℚ → ℚ) (sinF cosF : Int → ℚ)
    (t p : ℚ) : ∀ (n : Nat) (hist : List Obs) (d : Int),
    (forecastLoop model sinF cosF t p n hist d).fst.length = n := by
  intro n
  induction n with
  | zero => intro hist d; rfl
  | succ n ih =>
    intro hist d
    simp only [forecastLoop]
    rcases lastValue hist with _ | l1 <;>
      rcases secondLastValue hist with _ | l2 <;>
      rcases rollTail3 hist with _ | r <;>
      simp [ih]

theorem forecastLoop_fst_dates (model : List ℚ → ℚ) (sinF cosF : Int → ℚ)
    (t p : ℚ) : ∀ (n : Nat) (hist : List Obs) (d : Int) (k : Nat), k < n →
    ((forecastLoop model sinF cosF t p n hist d).fst.getD k ⟨0, none⟩).date
      = d + 1 + (k : Int) := by
  intro n
  induction n with
  | zero => intro hist d k hk; cases hk
  | succ n ih =>
    intro hist d k hk
    simp only [forecastLoop]
    rcases lastValue hist with _ | l1 <;>
      rcases secondLastValue hist with _ | l2 <;>
      rcases rollTail3 hist with _ | r <;>
      (rcases k with _ | k
       · simp
       · have hk' : k < n := Nat.lt_of_succ_lt_succ hk
         simp only [List.getD_cons_succ]
         rw [ih _ _ k hk']
         push_cast
         ring)

theorem forecastLoop_fst_values (model : List ℚ → ℚ) (sinF cosF : Int → ℚ)
    (t p : ℚ) : ∀ (n : Nat) (hist : List Obs) (d : Int) (pt : ForecastPoint),
    pt ∈ (forecastLoop model sinF cosF t p n hist d).fst →
    ∀ v : ℚ, pt.value = some v → -0.1 ≤ v ∧ v ≤ 1 := by
  intro n
  induction n with
  | zero => intro hist d pt hpt; cases hpt
  | succ n ih =>
    intro hist d pt hpt v hv
    simp only [forecastLoop] at hpt
    rcases h1 : lastValue hist with _ | l1 <;> rw [h1] at hpt <;>
      rcases h2 : secondLastValue hist with _ | l2 <;> rw [h2] at hpt <;>
      rcases h3 : rollTail3 hist with _ | r <;> rw [h3] at hpt
    case some.some.some =>
      rcases List.mem_cons.mp hpt with he | he
      · subst he
        cases hv
        constructor
        · exact le_max_left _ _
        · exact max_le (by norm_num) (le_trans (min_le_left _ _) (by norm_num))
      · exact ih _ _ pt he v hv
    all_goals
      rcases List.mem_cons.mp hpt with he | he
    all_goals
      first
      | (subst he; cases hv)
      | exact ih _ _ pt he v hv

theorem forecastLoop_snd_append (model : List ℚ → ℚ) (sinF cosF : Int → ℚ)
    (t p : ℚ) : ∀ (n : Nat) (hist : List Obs) (d : Int),
    ∃ ext : List Obs, (forecastLoop model sinF cosF t p n hist d).snd = hist ++ ext ∧
      ∀ o ∈ ext, ∀ v : ℚ, o.value = some v → -0.1 ≤ v ∧ v ≤ 1 := by
  intro n
  induction n with
  | zero =>
    intro hist d
    exact ⟨[], by simp [forecastLoop], by intro o ho; cases ho⟩
  | succ n ih =>
    intro hist d
    simp only [forecastLoop]
    rcases lastValue hist with _ | l1 <;>
      rcases secondLastValue hist with _ | l2 <;>
      rcases rollTail3 hist with _ | r
    case some.some.some =>
      obtain ⟨ext, hext, hv⟩ := ih (hist ++
        [⟨d + 1, some (max (-0.1) (min 1.0 (model [l1, l2, r, sinF (doy (d + 1)),
          cosF (doy (d + 1)), t, p])))⟩]) (d + 1)
      refine ⟨⟨d + 1, some (max (-0.1) (min 1.0 (model [l1, l2, r, sinF (doy (d + 1)),
          cosF (doy (d + 1)), t, p])))⟩ :: ext, ?_, ?_⟩
      · simpa using hext
      · intro o ho v hov
        rcases List.mem_cons.mp ho with he | he
        · subst he
          cases hov
          exact ⟨le_max_left _ _, max_le (by norm_num)
            (le_trans (min_le_left _ _) (by norm_num))⟩
        · exact hv o he v hov
    all_goals exact ih hist (d + 1)

end ForecastManager

/-- Claim C1: for a non-empty observation history, _forecastNext30Days
returns exactly 30 ForecastPoints dated on the 30 consecutive calendar days
after the last historical date (strictly increasing, none skipped or
repeated), every non-absent value lies in the closed interval from -0.1 to
1.0, and only such clamped values are appended to the rolling history used
by subsequent steps. -/
theorem C1_forecast_structure (model : List ℚ → ℚ) (sinF cosF : Int → ℚ)
    (viSeries : List Obs) (wx : List (Int × Wx)) (h : viSeries ≠ []) :
    ∃ out hist',
      forecastNext30DaysFull model sinF cosF viSeries wx = some (out, hist') ∧
      forecastNext30Days model sinF cosF viSeries wx = some out ∧
      out.length = 30 ∧
      (∀ k : Nat, k < 30 → (out.getD k ⟨0, none⟩).date
        = (viSeries.getLast h).date + 1 + (k : Int)) ∧
      (∀ pt ∈ out, ∀ v : ℚ, pt.value = some v → -0.1 ≤ v ∧ v ≤ 1) ∧
      ∃ ext, hist' = viSeries ++ ext ∧
        ∀ o ∈ ext, ∀ v : ℚ, o.value = some v → -0.1 ≤ v ∧ v ≤ 1 := by
  have hlast : viSeries.getLast? = some (viSeries.getLast h) :=
    List.getLast?_eq_getLast viSeries h
  refine ⟨(forecastLoop model sinF cosF (weatherProxies wx).fst
      (weatherProxies wx).snd 30 viSeries (viSeries.getLast h).date).fst,
    (forecastLoop model sinF cosF (weatherProxies wx).fst
      (weatherProxies wx).snd 30 viSeries (viSeries.getLast h).date).snd,
    ?_, ?_, forecastLoop_fst_length model sinF cosF _ _ 30 viSeries _,
    fun k hk => forecastLoop_fst_dates model sinF cosF _ _ 30 viSeries _ k hk,
    fun pt hpt v hv => forecastLoop_fst_values model sinF cosF _ _ 30 viSeries _ pt hpt v hv,
    forecastLoop_snd_append model sinF cosF _ _ 30 viSeries _⟩
  · simp only [forecastNext30DaysFull]
    rw [hlast]
  · simp only [forecastNext30Days, forecastNext30DaysFull]
    rw [hlast]
    rfl

/-- Witness for C1 on a concrete two-observation history with an unbounded
model output (which the forecaster clamps). -/
theorem C1_forecast_structure_witness :
    ([(⟨0, some (1/2)⟩ : Obs), ⟨1, some (3/10)⟩] ≠ []) ∧
    (∃ out hist',
      forecastNext30DaysFull (fun _ => 2) (fun _ => 0) (fun _ => 0)
          [⟨0, some (1/2)⟩, ⟨1, some (3/10)⟩] [] = some (out, hist') ∧
      forecastNext30Days (fun _ => 2) (fun _ => 0) (fun _ => 0)
          [⟨0, some (1/2)⟩, ⟨1, some (3/10)⟩] [] = some out ∧
      out.length = 30 ∧
      (∀ k : Nat, k < 30 → (out.getD k ⟨0, none⟩).date
        = (([(⟨0, some (1/2)⟩ : Obs), ⟨1, some (3/10)⟩].getLast
            (by simp)).date + 1 + (k : Int))) ∧
      (∀ pt ∈ out, ∀ v : ℚ, pt.value = some v → -0.1 ≤ v ∧ v ≤ 1) ∧
      ∃ ext, hist' = [⟨0, some (1/2)⟩, ⟨1, some (3/10)⟩] ++ ext ∧
        ∀ o ∈ ext, ∀ v : ℚ, o.value = some v → -0.1 ≤ v ∧ v ≤ 1) :=
  ⟨by simp, C1_forecast_structure (fun _ => 2) (fun _ => 0) (fun _ => 0)
    [⟨0, some (1/2)⟩, ⟨1, some (3/10)⟩] [] (by simp)⟩

namespace ForecastManager

/-- Dataset size is bounded by the number of loop indices (input length
minus two). -/
theorem buildDataset_length_le (sinF cosF : Int → ℚ) (viSeries : List Obs)
    (wx : List (Int × Wx)) :
    (buildDataset sinF cosF viSeries wx).x.length ≤ viSeries.length - 2 := by
  unfold buildDataset
  simp only [List.length_map]
  calc (((List.range viSeries.length).drop 2).filterMap
          (sampleAt sinF cosF viSeries wx)).length
      ≤ ((List.range viSeries.length).drop 2).length :=
        List.length_filterMap_le _ _
    _ = viSeries.length - 2 := by simp

end ForecastManager

/-- Claim C5: a dataset with fewer than 24 samples (in particular exactly 23)
makes the run stop with the insufficient-samples condition, training no model
and producing no forecast, while 24 or more samples proceed to training:
a training error is surfaced as the run's failure and a trained model leads
to the 30-day forecast. -/
theorem C5_sample_boundary (sqrtF : ℚ → ℚ) (sinF cosF : Int → ℚ)
    (viSeries : List Obs) (wx : List (Int × Wx)) :
    (viSeries ≠ [] → (buildDataset sinF cosF viSeries wx).x.length < 24 →
      runCoreLin sqrtF sinF cosF viSeries wx = RunOutcome.insufficientSamples) ∧
    (24 ≤ (buildDataset sinF cosF viSeries wx).x.length →
      (∀ e, trainModelLin sqrtF (buildDataset sinF cosF viSeries wx) = .error e →
        runCoreLin sqrtF sinF cosF viSeries wx = RunOutcome.failed e) ∧
      (∀ m, trainModelLin sqrtF (buildDataset sinF cosF viSeries wx) = .ok m →
        ∃ fc, forecastNext30Days (inferLin m) sinF cosF viSeries wx = some fc ∧
          runCoreLin sqrtF sinF cosF viSeries wx
            = RunOutcome.done fc (buildDataset sinF cosF viSeries wx).x.length)) := by
  constructor
  · intro hne hlt
    unfold runCoreLin
    rw [if_neg (by simpa using hne), if_pos hlt]
  · intro hge
    have hne : viSeries ≠ [] := by
      intro hempty
      rw [hempty] at hge
      simp [buildDataset] at hge
    constructor
    · intro e he
      unfold runCoreLin
      rw [if_neg (by simpa using hne), if_neg (not_lt.mpr hge), he]
    · intro m hm
      have hlast : viSeries.getLast? = some (viSeries.getLast hne) :=
        List.getLast?_eq_getLast viSeries hne
      refine ⟨(forecastLoop (inferLin m) sinF cosF (weatherProxies wx).fst
          (weatherProxies wx).snd 30 viSeries (viSeries.getLast hne).date).fst, ?_, ?_⟩
      · simp only [forecastNext30Days, forecastNext30DaysFull]
        rw [hlast]
        rfl
      · unfold runCoreLin
        rw [if_neg (by simpa using hne), if_neg (not_lt.mpr hge), hm]
        simp only [forecastNext30Days, forecastNext30DaysFull]
        rw [hlast]
        rfl

/-- Constant-valued observation series used as concrete test input. -/
def constSeries (n : Nat) : List Obs :=
  (List.range n).map (fun i => ⟨(i : Int), some (1/2)⟩)

/-- Constant weather mapping used as concrete test input. -/
def constWx (n : Nat) : List (Int × Wx) :=
  (List.range n).map (fun i => ((i : Int), ⟨some 1, some 1⟩))

/-- Zero seasonal encoder standing in for the sine and cosine features. -/
def zeroSeas : Int → ℚ := fun _ => 0

/-- Identity standing in for Math.sqrt in concrete runs. -/
def idSqrt : ℚ → ℚ := fun x => x

set_option maxRecDepth 100000 in
/-- Witness for C5: 25 constant observations yield exactly 23 samples and the
insufficient-samples stop; 26 yield 24 samples and training runs (failing
here with the singular matrix of an all-constant standardised dataset). -/
theorem C5_sample_boundary_witness :
    runCoreLin idSqrt zeroSeas zeroSeas (constSeries 25) (constWx 25)
      = RunOutcome.insufficientSamples ∧
    runCoreLin idSqrt zeroSeas zeroSeas (constSeries 26) (constWx 26)
      = RunOutcome.failed "Singular matrix" :=
  ⟨(C5_sample_boundary idSqrt zeroSeas zeroSeas (constSeries 25) (constWx 25)).1
      (by with_unfolding_all decide) (by with_unfolding_all decide),
   (C5_sample_boundary idSqrt zeroSeas zeroSeas (constSeries 26) (constWx 26)).2
      (by with_unfolding_all decide) |>.1 "Singular matrix"
      (by with_unfolding_all rfl)⟩

namespace ForecastManager

/-- The fold of the pivot search keeps an index whose column entry dominates
the start index and every scanned index, and returns either the start index
or a scanned index. -/
theorem pivotFold_spec (A : List (List ℚ)) (i : Nat) :
    ∀ (L : List Nat) (p0 : Nat),
    let p := L.foldl (fun p r => if |entry A r i| > |entry A p i| then r else p) p0
    (p = p0 ∨ p ∈ L) ∧ |entry A p0 i| ≤ |entry A p i| ∧
      ∀ r ∈ L, |entry A r i| ≤ |entry A p i| := by
  intro L
  induction L with
  | nil => intro p0; exact ⟨Or.inl rfl, le_refl _, fun r hr => absurd hr (List.not_mem_nil r)⟩
  | cons a L ih =>
    intro p0
    obtain ⟨hmem, hp0, hall⟩ := ih (if |entry A a i| > |entry A p0 i| then a else p0)
    simp only [List.foldl_cons]
    refine ⟨?_, ?_, ?_⟩
    · rcases hmem with hmem | hmem
      · rw [hmem]
        split_ifs with h
        · exact Or.inr (List.mem_cons_self a L)
        · exact Or.inl rfl
      · exact Or.inr (List.mem_cons_of_mem a hmem)
    · refine le_trans ?_ hp0
      split_ifs with h
      · exact le_of_lt h
      · exact le_refl _
    · intro r hr
      rcases List.mem_cons.mp hr with hr | hr
      · subst hr
        refine le_trans ?_ hp0
        split_ifs with h
        · exact le_refl _
        · exact le_of_not_lt h
      · exact hall r hr

/-- The selected pivot row lies in the scanned band and carries the largest
absolute value of column i among rows i..n-1. -/
theorem pivotSearch_spec (A : List (List ℚ)) (i n : Nat) (hi : i < n) :
    (i ≤ pivotSearch A i n ∧ pivotSearch A i n < n) ∧
    ∀ r, i ≤ r → r < n → |entry A r i| ≤ |entry A (pivotSearch A i n) i| := by
  obtain ⟨hmem, hp0, hall⟩ := pivotFold_spec A i (List.range' (i + 1) (n - (i + 1))) i
  unfold pivotSearch
  constructor
  · rcases hmem with hmem | hmem
    · rw [hmem]
      exact ⟨le_refl i, hi⟩
    · have hb := List.mem_range'_1.mp hmem
      exact ⟨by omega, by omega⟩
  · intro r hr1 hr2
    rcases Nat.eq_or_lt_of_le hr1 with hr | hr
    · rw [← hr]; exact hp0
    · exact hall r (List.mem_range'_1.mpr ⟨hr, by omega⟩)

/-- invStep fails exactly when every candidate pivot in the remaining band
of column i has absolute value below the 1e-8 threshold. -/
theorem invStep_error_iff (n i : Nat) (AI : List (List ℚ) × List (List ℚ))
    (hi : i < n) :
    invStep n i AI = Except.error "Singular matrix" ↔
      ∀ r, i ≤ r → r < n → |entry AI.fst r i| < 1e-8 := by
  obtain ⟨⟨hp1, hp2⟩, hmax⟩ := pivotSearch_spec AI.fst i n hi
  dsimp only [invStep]
  split_ifs with h
  · simp only [true_iff]
    intro r h1 h2
    exact lt_of_le_of_lt (hmax r h1 h2) h
  · constructor
    · intro hc
      exact absurd hc (by simp)
    · intro hall'
      exact absurd (hall' _ hp1 hp2) h

/-- The only error invStep can produce is the singular-matrix one. -/
theorem invStep_error_msg (n i : Nat) (AI : List (List ℚ) × List (List ℚ))
    (e : String) (he : invStep n i AI = Except.error e) : e = "Singular matrix" := by
  dsimp only [invStep] at he
  split_ifs at he with h
  all_goals first
    | (cases he; rfl)
    | cases he
    | rfl

/-- Equation of the pivot loop at a successor fuel value. -/
theorem invGo_succ (n fuel i : Nat) (AI : List (List ℚ) × List (List ℚ)) :
    invGo n (fuel + 1) i AI =
      match invStep n i AI with
      | .error e => .error e
      | .ok AI' => invGo n fuel (i + 1) AI' := rfl

/-- The only error the pivot loop can produce is the singular-matrix one. -/
theorem invGo_error_msg (n : Nat) : ∀ (fuel i : Nat)
    (AI : List (List ℚ) × List (List ℚ)) (e : String),
    invGo n fuel i AI = Except.error e → e = "Singular matrix" := by
  intro fuel
  induction fuel with
  | zero => intro i AI e he; cases he
  | succ fuel ih =>
    intro i AI e he
    rw [invGo_succ] at he
    cases hs : invStep n i AI with
    | error e' =>
      rw [hs] at he
      cases he
      exact invStep_error_msg n i AI _ hs
    | ok AI' =>
      rw [hs] at he
      exact ih (i + 1) AI' e he

end ForecastManager

/-- Claim C4: _invSym swaps the row with the largest absolute pivot-column
entry into the pivot position and fails with the "Singular matrix" error
exactly when even that best pivot magnitude is below 1e-8; the 2 by 2
all-zero matrix fails this way, the inversion can fail with no other
message, and the failure propagates untouched through the training attempt
to the failed run outcome. -/
theorem C4_invSym_singular :
    invSym [[0, 0], [0, 0]] = Except.error "Singular matrix" ∧
    (∀ M e, invSym M = Except.error e → e = "Singular matrix") ∧
    (∀ (n i : Nat) (AI : List (List ℚ) × List (List ℚ)), i < n →
      (invStep n i AI = Except.error "Singular matrix" ↔
        ∀ r, i ≤ r → r < n → |entry AI.fst r i| < 1e-8)) ∧
    (∀ sqrtF ds e, invSym (trainXTX sqrtF ds) = Except.error e →
      trainModelLin sqrtF ds = Except.error e) ∧
    (∀ (sqrtF : ℚ → ℚ) (sinF cosF : Int → ℚ) viSeries wx e, viSeries ≠ [] →
      24 ≤ (buildDataset sinF cosF viSeries wx).x.length →
      trainModelLin sqrtF (buildDataset sinF cosF viSeries wx) = Except.error e →
      runCoreLin sqrtF sinF cosF viSeries wx = RunOutcome.failed e) := by
  refine ⟨by with_unfolding_all rfl, ?_, ?_, ?_, ?_⟩
  · intro M e he
    dsimp only [invSym] at he
    exact invGo_error_msg M.length M.length 0 _ e he
  · intro n i AI hi
    exact invStep_error_iff n i AI hi
  · intro sqrtF ds e he
    unfold trainModelLin
    rw [he]
  · intro sqrtF sinF cosF viSeries wx e hne hge he
    unfold runCoreLin
    rw [if_neg (by simpa using hne), if_neg (not_lt.mpr hge), he]

set_option maxRecDepth 100000 in
/-- Witness for C4: the singular 2 by 2 zero matrix and a concrete
constant-feature dataset and run where the singular-matrix error survives to
the training result and the run outcome. -/
theorem C4_invSym_singular_witness :
    ("Singular matrix" : String) = "Singular matrix" ∧
    (∀ r, 0 ≤ r → r < 2 →
      |entry (Prod.fst (([[(0 : ℚ), 0], [0, 0]], idMat 2))) r 0| < 1e-8) ∧
    trainModelLin idSqrt ⟨[[1], [1]], [0, 0]⟩ = Except.error "Singular matrix" ∧
    runCoreLin idSqrt zeroSeas zeroSeas (constSeries 26) (constWx 26)
      = RunOutcome.failed "Singular matrix" := by
  refine ⟨C4_invSym_singular.2.1 [[0, 0], [0, 0]] "Singular matrix"
      (by with_unfolding_all rfl),
    (C4_invSym_singular.2.2.1 2 0 ([[0, 0], [0, 0]], idMat 2) (by norm_num)).mp
      (by with_unfolding_all rfl),
    C4_invSym_singular.2.2.2.1 idSqrt ⟨[[1], [1]], [0, 0]⟩ "Singular matrix"
      (by with_unfolding_all rfl),
    C4_invSym_singular.2.2.2.2 idSqrt zeroSeas zeroSeas (constSeries 26)
      (constWx 26) "Singular matrix" (by with_unfolding_all decide)
      (by with_unfolding_all decide) (by with_unfolding_all rfl)⟩

namespace ForecastManager

/-- The || 1 floor never returns zero. -/
theorem sigFloor_ne_zero (x : ℚ) : sigFloor x ≠ 0 := by
  unfold sigFloor
  split_ifs with h
  · norm_num
  · exact h

/-- Every stored column standard deviation of a trained linear model is the
floored one, hence nonzero; likewise the target standard deviation. -/
theorem trainModelLin_sig (sqrtF : ℚ → ℚ) (ds : Dataset) (model : LinModel)
    (h : trainModelLin sqrtF ds = Except.ok model) :
    model.mu = muOf ds.x ∧ model.sig = sigOf sqrtF ds.x ∧
    model.yMu = yMuOf ds.y ∧ model.ySig = ySigOf sqrtF ds.y := by
  unfold trainModelLin at h
  cases hs : invSym (trainXTX sqrtF ds) with
  | error e => rw [hs] at h; cases h
  | ok N =>
    rw [hs] at h
    cases h
    exact ⟨rfl, rfl, rfl, rfl⟩

end ForecastManager

/-- Claim C8: with the trainer's floored standard deviations (never zero),
un-standardising a standardised value returns it exactly, for every feature
column of the trained model and for the target. -/
theorem C8_standardize_roundtrip (sqrtF : ℚ → ℚ) (ds : Dataset)
    (model : LinModel) (h : trainModelLin sqrtF ds = Except.ok model) :
    (∀ p ∈ model.mu.zip model.sig, ∀ v : ℚ,
      ((v - p.fst) / p.snd) * p.snd + p.fst = v) ∧
    model.ySig ≠ 0 ∧
    (∀ v : ℚ, ((v - model.yMu) / model.ySig) * model.ySig + model.yMu = v) := by
  obtain ⟨hmu, hsig, hymu, hysig⟩ := ForecastManager.trainModelLin_sig sqrtF ds model h
  have hy0 : model.ySig ≠ 0 := by
    rw [hysig]
    exact ForecastManager.sigFloor_ne_zero _
  refine ⟨?_, hy0, ?_⟩
  · intro p hp v
    have hs : p.snd ∈ model.sig := (List.of_mem_zip hp).2
    rw [hsig] at hs
    obtain ⟨j, hj, hjs⟩ := List.mem_map.mp hs
    have hs0 : p.snd ≠ 0 := by
      rw [← hjs]
      exact ForecastManager.sigFloor_ne_zero _
    rw [div_mul_cancel₀ _ hs0]
    ring
  · intro v
    rw [div_mul_cancel₀ _ hy0]
    ring

/-- Witness for C8 at a concrete two-sample dataset whose trained model has
all standardisation parameters one half. -/
theorem C8_standardize_roundtrip_witness :
    (∀ p ∈ (LinModel.mk [1/2] [1/2] (1/2) (1/2) [1] 0).mu.zip
        (LinModel.mk [1/2] [1/2] (1/2) (1/2) [1] 0).sig, ∀ v : ℚ,
      ((v - p.fst) / p.snd) * p.snd + p.fst = v) ∧
    (LinModel.mk [1/2] [1/2] (1/2) (1/2) [1] 0).ySig ≠ 0 ∧
    (∀ v : ℚ, ((v - (LinModel.mk [1/2] [1/2] (1/2) (1/2) [1] 0).yMu) /
        (LinModel.mk [1/2] [1/2] (1/2) (1/2) [1] 0).ySig) *
      (LinModel.mk [1/2] [1/2] (1/2) (1/2) [1] 0).ySig +
      (LinModel.mk [1/2] [1/2] (1/2) (1/2) [1] 0).yMu = v) :=
  C8_standardize_roundtrip idSqrt ⟨[[0], [1]], [0, 1]⟩
    (LinModel.mk [1/2] [1/2] (1/2) (1/2) [1] 0) (by with_unfolding_all rfl)

/-- Drop of a range is a shifted range. -/
theorem range_drop (n m : Nat) : (List.range n).drop m = List.range' m (n - m) := by
  apply List.ext_getElem?
  intro k
  rw [List.getElem?_drop]
  by_cases h : m + k < n
  · rw [List.getElem?_range h, List.getElem?_range' m 1 (show k < n - m by omega)]
    simp
  · have e1 : (List.range n)[m + k]? = none := by
      rw [List.getElem?_eq_none]
      simp
      omega
    have e2 : (List.range' m (n - m))[k]? = none := by
      rw [List.getElem?_eq_none]
      simp [List.length_range']
      omega
    rw [e1, e2]

namespace ForecastManager

/-- An in-range getD is a member of the list. -/
theorem getD_mem (l : List Obs) (i : Nat) (hi : i < l.length) :
    l.getD i ⟨0, none⟩ ∈ l := by
  rw [List.getD_eq_getElem?_getD, List.getElem?_eq_getElem hi]
  exact List.getElem_mem hi

/-- With pairwise distinct observation dates, the byDate Map lookup at the
date of index i returns index i's value. -/
theorem byDateGet_nodup : ∀ (l : List Obs), (l.map Obs.date).Nodup →
    ∀ i, i < l.length → byDateGet l (dateAt l i) = (l.getD i ⟨0, none⟩).value := by
  intro l
  induction l with
  | nil => intro _ i hi; cases hi
  | cons h0 tl ih =>
    intro hnd i hi
    rw [List.map_cons, List.nodup_cons] at hnd
    cases i with
    | zero =>
      show byDateGet (h0 :: tl) h0.date = h0.value
      unfold byDateGet
      rw [List.filter_cons_of_pos (by simp)]
      have hnil : tl.filter (fun v => decide (v.date = h0.date)) = [] := by
        rw [List.filter_eq_nil_iff]
        intro a ha hcontra
        rw [decide_eq_true_eq] at hcontra
        exact hnd.1 (hcontra ▸ List.mem_map.mpr ⟨a, ha, rfl⟩)
      rw [hnil]
      rfl
    | succ i =>
      have hi' : i < tl.length := by simpa using hi
      have hd : dateAt (h0 :: tl) (i + 1) = dateAt tl i := by
        unfold dateAt
        rw [List.getD_cons_succ]
      rw [hd]
      have hmem : dateAt tl i ∈ tl.map Obs.date :=
        List.mem_map.mpr ⟨tl.getD i ⟨0, none⟩, getD_mem tl i hi', rfl⟩
      have hne : ¬(h0.date = dateAt tl i) := fun hc => hnd.1 (hc ▸ hmem)
      show byDateGet (h0 :: tl) (dateAt tl i) = _
      unfold byDateGet
      rw [List.filter_cons_of_neg (by simpa using hne)]
      rw [List.getD_cons_succ]
      exact ih hnd.2 i hi'

/-- Three consecutive in-range entries read off a drop-take window. -/
theorem drop_take_three (l : List Obs) (k : Nat) (hk : k + 2 < l.length) :
    (l.drop k).take 3 =
      [l.getD k ⟨0, none⟩, l.getD (k + 1) ⟨0, none⟩, l.getD (k + 2) ⟨0, none⟩] := by
  have h0 : l[k]? = some (l.getD k ⟨0, none⟩) := by
    rw [List.getD_eq_getElem?_getD, List.getElem?_eq_getElem (by omega)]
    rfl
  have h1 : l[k + 1]? = some (l.getD (k + 1) ⟨0, none⟩) := by
    rw [List.getD_eq_getElem?_getD, List.getElem?_eq_getElem (by omega)]
    rfl
  have h2 : l[k + 2]? = some (l.getD (k + 2) ⟨0, none⟩) := by
    rw [List.getD_eq_getElem?_getD, List.getElem?_eq_getElem (by omega)]
    rfl
  apply List.ext_getElem?
  intro n
  match n with
  | 0 => simpa [List.getElem?_take, List.getElem?_drop] using h0
  | 1 => simpa [List.getElem?_take, List.getElem?_drop] using h1
  | 2 => simpa [List.getElem?_take, List.getElem?_drop] using h2
  | n + 3 =>
    rw [List.getElem?_eq_none (by
      have := List.length_take 3 (l.drop k)
      omega)]
    rfl

/-- When the three window values at i-2, i-1 and i are all present, the
rolling helper returns their arithmetic mean. -/
theorem roll_eq_of_all_some (l : List Obs) (i : Nat) (h2 : 2 ≤ i)
    (hi : i < l.length) (v l1 l2 : ℚ)
    (hv : (l.getD i ⟨0, none⟩).value = some v)
    (h1 : (l.getD (i - 1) ⟨0, none⟩).value = some l1)
    (hl2 : (l.getD (i - 2) ⟨0, none⟩).value = some l2) :
    roll l i = some ((l2 + l1 + v) / 3) := by
  dsimp only [roll]
  rw [List.drop_take]
  have e1 : i + 1 - 3 = i - 2 := by omega
  have e2 : i + 1 - (i + 1 - 3) = 3 := by omega
  rw [e1] at e2 ⊢
  rw [e2]
  rw [drop_take_three l (i - 2) (by omega)]
  have e3 : i - 2 + 1 = i - 1 := by omega
  have e4 : i - 2 + 2 = i := by omega
  rw [e3, e4]
  rw [show ([l.getD (i-2) ⟨0,none⟩, l.getD (i-1) ⟨0,none⟩,
       l.getD i ⟨0,none⟩].filterMap (fun v => v.value)) =
      [l2, l1, v] by
    simp only [List.filterMap_cons, List.filterMap_nil, hl2, h1, hv]]
  norm_num
  ring

end ForecastManager

namespace ForecastManager

/-- Under distinct dates, the loop body at an in-range index i reads exactly
the values at indices i, i-1, i-2 (no look-ahead), uses the arithmetic mean
of those three present values as the rolling feature, and skips the index
exactly when the target, a lag, or a weather field is absent. -/
theorem sampleAt_spec (sinF cosF : Int → ℚ) (l : List Obs)
    (wx : List (Int × Wx)) (hnd : (l.map Obs.date).Nodup) (i : Nat)
    (h2 : 2 ≤ i) (hi : i < l.length) :
    sampleAt sinF cosF l wx i =
      match (l.getD i ⟨0, none⟩).value, (l.getD (i - 1) ⟨0, none⟩).value,
            (l.getD (i - 2) ⟨0, none⟩).value,
            (lookupWx wx (dateAt l i)).bind (fun u => u.tMean),
            (lookupWx wx (dateAt l i)).bind (fun u => u.pSum) with
      | some v, some l1, some l2, some tM, some pS =>
        some ([l1, l2, (l2 + l1 + v) / 3, sinF (doy (dateAt l i)),
               cosF (doy (dateAt l i)), tM, pS], v)
      | _, _, _, _, _ => none := by
  dsimp only [sampleAt]
  rw [byDateGet_nodup l hnd i hi,
      byDateGet_nodup l hnd (i - 1) (by omega),
      byDateGet_nodup l hnd (i - 2) (by omega)]
  rcases hv : (l.getD i ⟨0, none⟩).value with _ | v
  · rfl
  · rcases h1 : (l.getD (i - 1) ⟨0, none⟩).value with _ | l1
    · rfl
    · rcases hl2 : (l.getD (i - 2) ⟨0, none⟩).value with _ | l2
      · rfl
      · rw [roll_eq_of_all_some l i h2 hi v l1 l2 hv h1 hl2]
        rcases (lookupWx wx (dateAt l i)).bind (fun u => u.tMean) with _ | tM <;>
          rcases (lookupWx wx (dateAt l i)).bind (fun u => u.pSum) with _ | pS <;>
          rfl

end ForecastManager

/-- Claim C3: under the data-model assumption of pairwise distinct dates,
the Feature Builder emits for each index i from 2 upward at most one sample;
an emitted sample's target is the value at i, its 7 features are, in order,
the value at i-1, the value at i-2, the mean of the three present values at
i-2, i-1, i (the up-to-3 most recent non-absent values ending at i), the
seasonal sine and cosine of i's day-of-year, and the weather aggregates at
i's date; a sample is skipped entirely whenever any required field is
absent, so no emitted FeatureVector contains an absent value and no feature
reads past index i. -/
theorem C3_feature_builder (sinF cosF : Int → ℚ) (viSeries : List Obs)
    (wx : List (Int × Wx)) (hnd : (viSeries.map Obs.date).Nodup) :
    (buildDataset sinF cosF viSeries wx).x.length
      = (buildDataset sinF cosF viSeries wx).y.length ∧
    (buildDataset sinF cosF viSeries wx).x.zip
        (buildDataset sinF cosF viSeries wx).y
      = (List.range' 2 (viSeries.length - 2)).filterMap (fun i =>
          match (viSeries.getD i ⟨0, none⟩).value,
                (viSeries.getD (i - 1) ⟨0, none⟩).value,
                (viSeries.getD (i - 2) ⟨0, none⟩).value,
                (lookupWx wx (dateAt viSeries i)).bind (fun u => u.tMean),
                (lookupWx wx (dateAt viSeries i)).bind (fun u => u.pSum) with
          | some v, some l1, some l2, some tM, some pS =>
            some ([l1, l2, (l2 + l1 + v) / 3, sinF (doy (dateAt viSeries i)),
                   cosF (doy (dateAt viSeries i)), tM, pS], v)
          | _, _, _, _, _ => none) := by
  constructor
  · unfold buildDataset
    simp
  · unfold buildDataset
    dsimp only
    rw [List.zip_map']
    rw [show (fun (p : List ℚ × ℚ) => (p.fst, p.snd)) = id from rfl, List.map_id]
    rw [range_drop]
    apply List.filterMap_congr
    intro i hmem
    have hb := List.mem_range'_1.mp hmem
    exact ForecastManager.sampleAt_spec sinF cosF viSeries wx hnd i hb.1
      (by omega)

/-- Witness for C3 on a concrete four-observation series with distinct
dates. -/
theorem C3_feature_builder_witness :
    (buildDataset zeroSeas zeroSeas (constSeries 4) (constWx 4)).x.length
      = (buildDataset zeroSeas zeroSeas (constSeries 4) (constWx 4)).y.length ∧
    (buildDataset zeroSeas zeroSeas (constSeries 4) (constWx 4)).x.zip
        (buildDataset zeroSeas zeroSeas (constSeries 4) (constWx 4)).y
      = (List.range' 2 ((constSeries 4).length - 2)).filterMap (fun i =>
          match ((constSeries 4).getD i ⟨0, none⟩).value,
                ((constSeries 4).getD (i - 1) ⟨0, none⟩).value,
                ((constSeries 4).getD (i - 2) ⟨0, none⟩).value,
                (lookupWx (constWx 4) (dateAt (constSeries 4) i)).bind
                  (fun u => u.tMean),
                (lookupWx (constWx 4) (dateAt (constSeries 4) i)).bind
                  (fun u => u.pSum) with
          | some v, some l1, some l2, some tM, some pS =>
            some ([l1, l2, (l2 + l1 + v) / 3,
                   zeroSeas (ForecastManager.doy (dateAt (constSeries 4) i)),
                   zeroSeas (ForecastManager.doy (dateAt (constSeries 4) i)),
                   tM, pS], v)
          | _, _, _, _, _ => none) :=
  C3_feature_builder zeroSeas zeroSeas (constSeries 4) (constWx 4)
    (by with_unfolding_all decide)

namespace ForecastManager

/-- Heap of JS arrays of observations; a reference is an index into it.
Used to model array identity and in-place mutation for the aliasing claim. -/
def heapGet (heap : List (List Obs)) (r : Nat) : List Obs :=
  heap.getD r []

/-- In-place update of the array behind reference r. -/
def heapSet (heap : List (List Obs)) (r : Nat) (a : List Obs) :
    List (List Obs) :=
  heap.set r a

/-- The 30-step loop of _forecastNext30Days acting on the heap: every read
and every push goes through the rolling-history reference rHist. -/
def loopHeap (model : List ℚ → ℚ) (sinF cosF : Int → ℚ) (tConst pConst : ℚ) :
    Nat → List (List Obs) → Nat → Int → List ForecastPoint × List (List Obs)
  | 0, heap, _, _ => ([], heap)
  | n + 1, heap, rHist, d =>
    let hist := heapGet heap rHist
    let iso := d + 1
    match lastValue hist, secondLastValue hist, rollTail3 hist with
    | some l1, some l2, some r =>
      let f := [l1, l2, r, sinF (doy iso), cosF (doy iso), tConst, pConst]
      let vhat := model f
      let clipped := max (-0.1) (min 1.0 vhat)
      let heap' := heapSet heap rHist (hist ++ [⟨iso, some clipped⟩])
      let rest := loopHeap model sinF cosF tConst pConst n heap' rHist iso
      (⟨iso, some clipped⟩ :: rest.fst, rest.snd)
    | _, _, _ =>
      let rest := loopHeap model sinF cosF tConst pConst n heap rHist iso
      (⟨iso, none⟩ :: rest.fst, rest.snd)

/-- _forecastNext30Days on the heap: viSeries.slice() allocates a fresh
array (reference heap.length) holding a copy of the input array's contents,
and the loop mutates only that fresh array. -/
def forecastHeap (model : List ℚ → ℚ) (sinF cosF : Int → ℚ)
    (heap : List (List Obs)) (rIn : Nat) (wx : List (Int × Wx)) :
    Option (List ForecastPoint × List (List Obs)) :=
  let viSeries := heapGet heap rIn
  match viSeries.getLast? with
  | none => none
  | some last =>
    let tp := weatherProxies wx
    let heap1 := heap ++ [viSeries]
    let rHist := heap.length
    some (loopHeap model sinF cosF tp.fst tp.snd 30 heap1 rHist last.date)

/-- Writing back the array a reference already holds is the identity. -/
theorem heapSet_self (heap : List (List Obs)) (r : Nat) (h : r < heap.length) :
    heapSet heap r (heapGet heap r) = heap := by
  apply List.ext_getElem?
  intro n
  by_cases hn : r = n
  · subst hn
    show (heap.set r (heapGet heap r))[r]? = _
    rw [List.getElem?_set_self']
    unfold heapGet
    rw [List.getD_eq_getElem?_getD, List.getElem?_eq_getElem h]
    simp
  · exact List.getElem?_set_ne hn

/-- The heap loop computes exactly the pure loop on the referenced rolling
history, and its only heap effect is on that reference. -/
theorem loopHeap_spec (model : List ℚ → ℚ) (sinF cosF : Int → ℚ)
    (t p : ℚ) : ∀ (n : Nat) (heap : List (List Obs)) (rHist : Nat) (d : Int),
    rHist < heap.length →
    loopHeap model sinF cosF t p n heap rHist d
      = ((forecastLoop model sinF cosF t p n (heapGet heap rHist) d).fst,
         heapSet heap rHist
           (forecastLoop model sinF cosF t p n (heapGet heap rHist) d).snd) := by
  intro n
  induction n with
  | zero =>
    intro heap rHist d hr
    show ([], heap) = _
    rw [show (forecastLoop model sinF cosF t p 0 (heapGet heap rHist) d).snd
        = heapGet heap rHist from rfl, heapSet_self heap rHist hr]
    rfl
  | succ n ih =>
    intro heap rHist d hr
    simp only [loopHeap, forecastLoop]
    rcases lastValue (heapGet heap rHist) with _ | l1 <;>
      rcases secondLastValue (heapGet heap rHist) with _ | l2 <;>
      rcases rollTail3 (heapGet heap rHist) with _ | r <;>
      dsimp only
    case some.some.some =>
      have hr' : rHist < (heapSet heap rHist (heapGet heap rHist ++
          [⟨d + 1, some (max (-0.1) (min 1.0 (model [l1, l2, r, sinF (doy (d + 1)),
            cosF (doy (d + 1)), t, p])))⟩])).length := by
        unfold heapSet
        rw [List.length_set]
        exact hr
      rw [ih _ rHist (d + 1) hr']
      have hg : heapGet (heapSet heap rHist (heapGet heap rHist ++
          [⟨d + 1, some (max (-0.1) (min 1.0 (model [l1, l2, r, sinF (doy (d + 1)),
            cosF (doy (d + 1)), t, p])))⟩])) rHist
          = heapGet heap rHist ++ [⟨d + 1, some (max (-0.1) (min 1.0 (model [l1, l2, r,
              sinF (doy (d + 1)), cosF (doy (d + 1)), t, p])))⟩] := by
        unfold heapGet heapSet
        rw [List.getD_eq_getElem?_getD, List.getElem?_set_self',
          List.getElem?_eq_getElem hr]
        simp
      rw [hg]
      unfold heapSet
      rw [List.set_set]
    all_goals
      rw [ih heap rHist (d + 1) hr]
end ForecastManager

/-- Claim C9: _forecastNext30Days never modifies the input observation
array: the rolling history is a freshly allocated copy (no aliasing), every
push during the 30 steps mutates only that copy, and afterwards the input
reference still holds exactly the original (date, value) entries while the
emitted forecast agrees with the pure reading of the function. -/
theorem C9_no_aliasing (model : List ℚ → ℚ) (sinF cosF : Int → ℚ)
    (heap : List (List Obs)) (rIn : Nat) (wx : List (Int × Wx))
    (hr : rIn < heap.length) (hne : heapGet heap rIn ≠ []) :
    ∃ out heap2,
      forecastHeap model sinF cosF heap rIn wx = some (out, heap2) ∧
      heapGet heap2 rIn = heapGet heap rIn ∧
      heap2.length = heap.length + 1 ∧
      forecastNext30Days model sinF cosF (heapGet heap rIn) wx = some out := by
  have hlast := List.getLast?_eq_getLast (heapGet heap rIn) hne
  have happ : heapGet (heap ++ [heapGet heap rIn]) heap.length
      = heapGet heap rIn := by
    unfold heapGet
    rw [List.getD_eq_getElem?_getD, List.getElem?_append_right (le_refl _)]
    simp
  have hget2 : ∀ a, heapGet (heapSet (heap ++ [heapGet heap rIn])
      heap.length a) rIn = heapGet heap rIn := by
    intro a
    unfold heapGet heapSet
    rw [List.getD_eq_getElem?_getD, List.getElem?_set_ne (by omega),
      List.getElem?_append, if_pos hr, ← List.getD_eq_getElem?_getD]
  refine ⟨(forecastLoop model sinF cosF (weatherProxies wx).fst
      (weatherProxies wx).snd 30 (heapGet heap rIn)
      ((heapGet heap rIn).getLast hne).date).fst,
    heapSet (heap ++ [heapGet heap rIn]) heap.length
      (forecastLoop model sinF cosF (weatherProxies wx).fst
        (weatherProxies wx).snd 30 (heapGet heap rIn)
        ((heapGet heap rIn).getLast hne).date).snd, ?_, hget2 _, ?_, ?_⟩
  · dsimp only [forecastHeap]
    rw [hlast]
    dsimp only
    rw [loopHeap_spec model sinF cosF _ _ 30 (heap ++ [heapGet heap rIn])
      heap.length _ (by simp), happ]
  · unfold heapSet
    rw [List.length_set]
    simp
  · simp only [forecastNext30Days, forecastNext30DaysFull]
    rw [hlast]
    rfl

/-- Witness for C9 on a one-array heap holding a two-observation series. -/
theorem C9_no_aliasing_witness :
    ∃ out heap2,
      forecastHeap (fun _ => 2) zeroSeas zeroSeas
          [[⟨0, some (1/2)⟩, ⟨1, some (3/10)⟩]] 0 [] = some (out, heap2) ∧
      heapGet heap2 0 = heapGet [[⟨0, some (1/2)⟩, ⟨1, some (3/10)⟩]] 0 ∧
      heap2.length = [[(⟨0, some (1/2)⟩ : Obs), ⟨1, some (3/10)⟩]].length + 1 ∧
      forecastNext30Days (fun _ => 2) zeroSeas zeroSeas
          (heapGet [[⟨0, some (1/2)⟩, ⟨1, some (3/10)⟩]] 0) [] = some out :=
  C9_no_aliasing (fun _ => 2) zeroSeas zeroSeas
    [[⟨0, some (1/2)⟩, ⟨1, some (3/10)⟩]] 0 [] (by norm_num)
    (by with_unfolding_all decide)

namespace ForecastManager

/-- A square matrix of dimension n in the list representation. -/
def Sq (n : Nat) (A : List (List ℚ)) : Prop :=
  A.length = n ∧ ∀ row ∈ A, row.length = n

/-- Rows read with getD are members, with length n under squareness. -/
theorem Sq.row_length {n : Nat} {A : List (List ℚ)} (h : Sq n A) {r : Nat}
    (hr : r < n) : (A.getD r []).length = n := by
  have hl := h.1
  apply h.2
  rw [List.getD_eq_getElem?_getD, List.getElem?_eq_getElem (by omega)]
  exact List.getElem_mem _

/-- In-range optional indexing of a row yields the entry. -/
theorem row_getElem?_eq_entry (A : List (List ℚ)) (r j : Nat)
    (hj : j < (A.getD r []).length) :
    (A.getD r [])[j]? = some (entry A r j) := by
  unfold entry
  rw [List.getElem?_eq_getElem hj]
  rw [List.getD_eq_getElem?_getD (A.getD r []), List.getElem?_eq_getElem hj]
  rfl

/-- Two square matrices with equal entries are equal. -/
theorem sq_ext {n : Nat} {A B : List (List ℚ)} (hA : Sq n A) (hB : Sq n B)
    (h : ∀ r j, r < n → j < n → entry A r j = entry B r j) : A = B := by
  have hAl := hA.1
  have hBl := hB.1
  apply List.ext_getElem?
  intro r
  by_cases hr : r < n
  · have hrowA : A[r]? = some (A.getD r []) := by
      rw [List.getD_eq_getElem?_getD, List.getElem?_eq_getElem (by omega)]
      rfl
    have hrowB : B[r]? = some (B.getD r []) := by
      rw [List.getD_eq_getElem?_getD, List.getElem?_eq_getElem (by omega)]
      rfl
    rw [hrowA, hrowB]
    congr 1
    apply List.ext_getElem?
    intro j
    have hlA : (A.getD r []).length = n := hA.row_length hr
    have hlB : (B.getD r []).length = n := hB.row_length hr
    by_cases hj : j < n
    · rw [row_getElem?_eq_entry A r j (by omega),
        row_getElem?_eq_entry B r j (by omega), h r j hr hj]
    · rw [List.getElem?_eq_none (by omega), List.getElem?_eq_none (by omega)]
  · rw [List.getElem?_eq_none (by omega : A.length ≤ r),
      List.getElem?_eq_none (by omega : B.length ≤ r)]

end ForecastManager

namespace ForecastManager

/-- getD of a mapped list at an in-range index. -/
theorem getD_map_of_lt {α β : Type} (A : List α) (f : α → β) (r : Nat)
    (hr : r < A.length) (da : α) (db : β) :
    (A.map f).getD r db = f (A.getD r da) := by
  rw [List.getD_eq_getElem?_getD, List.getElem?_map,
    List.getElem?_eq_getElem hr, List.getD_eq_getElem?_getD,
    List.getElem?_eq_getElem hr]
  rfl

/-- getD of a map over a range at an in-range index. -/
theorem getD_map_range {β : Type} (m : Nat) (g : Nat → β) (j : Nat)
    (hj : j < m) (d : β) : ((List.range m).map g).getD j d = g j := by
  rw [List.getD_eq_getElem?_getD, List.getElem?_map, List.getElem?_range hj]
  rfl

/-- The first row of a nonempty square matrix has length n. -/
theorem headD_length {n : Nat} {B : List (List ℚ)} (hB : Sq n B) (hn : 0 < n) :
    (B.headD []).length = n := by
  cases B with
  | nil =>
    have := hB.1
    simp at this
    omega
  | cons b bs => exact hB.2 b (List.mem_cons_self b bs)

/-- Matrix product entries as a Finset sum, under squareness. -/
theorem entry_matMul {n : Nat} {A B : List (List ℚ)} (hA : Sq n A)
    (hB : Sq n B) (r j : Nat) (hr : r < n) (hj : j < n) :
    entry (matMul A B) r j
      = ∑ k in Finset.range n, entry A r k * entry B k j := by
  have hrA : r < A.length := by rw [hA.1]; omega
  have hrow : (A.getD r []).length = n := hA.row_length hr
  have hcols : (B.headD []).length = n := headD_length hB (by omega)
  unfold entry matMul
  rw [getD_map_of_lt _ _ r hrA []]
  rw [hcols]
  rw [getD_map_range n _ j hj]
  rw [hrow]
  rfl

/-- Shape of the matrix product. -/
theorem Sq_matMul {n : Nat} {A B : List (List ℚ)} (hA : Sq n A)
    (hB : Sq n B) : Sq n (matMul A B) := by
  constructor
  · unfold matMul
    rw [List.length_map, hA.1]
  · intro row hrow
    unfold matMul at hrow
    obtain ⟨r0, hr0, hre⟩ := List.mem_map.mp hrow
    rw [← hre, List.length_map, List.length_range]
    by_cases hn : 0 < n
    · exact headD_length hB hn
    · have : A.length = 0 := by rw [hA.1]; omega
      rw [List.length_eq_zero] at this
      rw [this] at hr0
      cases hr0

/-- Shape of the seed identity matrix. -/
theorem Sq_idMat (n : Nat) : Sq n (idMat n) := by
  constructor
  · unfold idMat
    rw [List.length_map, List.length_range]
  · intro row hrow
    unfold idMat at hrow
    obtain ⟨r0, hr0, hre⟩ := List.mem_map.mp hrow
    rw [← hre, List.length_map, List.length_range]

/-- Entries of the seed identity matrix. -/
theorem entry_idMat (n i j : Nat) (hi : i < n) (hj : j < n) :
    entry (idMat n) i j = if i = j then 1 else 0 := by
  unfold entry idMat
  rw [getD_map_range n _ i hi []]
  rw [getD_map_range n _ j hj 0]

/-- Multiplying by the seed identity on the left is the identity, entrywise
consequence: row r of idMat times B gives row r of B. -/
theorem matMul_idMat_left {n : Nat} {B : List (List ℚ)} (hB : Sq n B) :
    matMul (idMat n) B = B := by
  apply sq_ext (Sq_matMul (Sq_idMat n) hB) hB
  intro r j hr hj
  rw [entry_matMul (Sq_idMat n) hB r j hr hj]
  have hcong : ∀ k ∈ Finset.range n,
      entry (idMat n) r k * entry B k j
        = if r = k then entry B k j else 0 := fun k hk => by
    rw [entry_idMat n r k hr (Finset.mem_range.mp hk)]
    split_ifs <;> simp
  rw [Finset.sum_congr rfl hcong, Finset.sum_ite_eq]
  simp [Finset.mem_range.mpr hr]

end ForecastManager

namespace ForecastManager

/-- getD of mapIdx at an in-range index. -/
theorem getD_mapIdx_of_lt {α β : Type} (l : List α) (g : Nat → α → β)
    (r : Nat) (hr : r < l.length) (da : α) (db : β) :
    (l.mapIdx g).getD r db = g r (l.getD r da) := by
  rw [List.getD_eq_getElem?_getD, List.getElem?_mapIdx,
    List.getElem?_eq_getElem hr, List.getD_eq_getElem?_getD,
    List.getElem?_eq_getElem hr]
  rfl

/-- Pointwise multiplication law for getD on a scaled row (out of range both
sides are zero). -/
theorem getD_map_mul (row : List ℚ) (c0 : ℚ) (c : Nat) :
    (row.map (fun a => a * c0)).getD c 0 = row.getD c 0 * c0 := by
  by_cases h : c < row.length
  · rw [getD_map_of_lt row _ c h 0]
  · rw [List.getD_eq_default _ _ (by rw [List.length_map]; omega),
      List.getD_eq_default _ _ (by omega : row.length ≤ c)]
    ring

/-- Squareness from the lengths of getD rows. -/
theorem Sq_of_getD {n : Nat} {A : List (List ℚ)} (hl : A.length = n)
    (h : ∀ r, r < n → (A.getD r []).length = n) : Sq n A := by
  refine ⟨hl, ?_⟩
  intro row hrow
  obtain ⟨r, hr, he⟩ := List.mem_iff_getElem.mp hrow
  have : A.getD r [] = row := by
    rw [List.getD_eq_getElem?_getD, List.getElem?_eq_getElem hr, he]
    rfl
  rw [← this]
  exact h r (by omega)

/-- Entries after a single row replacement. -/
theorem entry_set (A : List (List ℚ)) (i : Nat) (a : List ℚ) (r c : Nat)
    (hi : i < A.length) :
    entry (A.set i a) r c = if r = i then a.getD c 0 else entry A r c := by
  unfold entry
  by_cases h : r = i
  · subst h
    rw [if_pos rfl]
    have hrow : (A.set r a).getD r [] = a := by
      rw [List.getD_eq_getElem?_getD, List.getElem?_set_self',
        List.getElem?_eq_getElem hi]
      rfl
    rw [hrow]
  · rw [if_neg h]
    have hrow : (A.set i a).getD r [] = A.getD r [] := by
      rw [List.getD_eq_getElem?_getD,
        List.getElem?_set_ne (fun hc => h hc.symm), ← List.getD_eq_getElem?_getD]
    rw [hrow]

/-- Entries after the pivot row swap. -/
theorem entry_swapRows (A : List (List ℚ)) (i p : Nat) (hi : i < A.length)
    (hp : p < A.length) (r c : Nat) :
    entry (swapRows A i p) r c
      = entry A (if r = i then p else if r = p then i else r) c := by
  unfold swapRows
  dsimp only
  rw [entry_set _ p _ r c (by rw [List.length_set]; omega),
    entry_set _ i _ r c hi]
  unfold entry
  split_ifs with h1 h2 h3 h4
  · subst h1; subst h2; rfl
  · subst h1; rfl
  · subst h3; rfl
  · rfl

/-- Entries after scaling the pivot row. -/
theorem entry_scaleRow (A : List (List ℚ)) (i : Nat) (c0 : ℚ) (r c : Nat)
    (hi : i < A.length) :
    entry (scaleRow A i c0) r c
      = if r = i then entry A r c * c0 else entry A r c := by
  unfold scaleRow
  rw [entry_set _ i _ r c hi]
  split_ifs with h
  · subst h
    rw [getD_map_mul]
    rfl
  · rfl

/-- Entries after the elimination pass at pivot column i. -/
theorem entry_elimRows (A : List (List ℚ)) (f : Nat → ℚ) (i : Nat)
    (r c : Nat) (hr : r < A.length) (hc : c < (A.getD r []).length) :
    entry (elimRows f A i) r c
      = if r = i then entry A i c
        else entry A r c - f r * entry A i c := by
  unfold elimRows entry
  dsimp only
  rw [getD_mapIdx_of_lt _ _ r hr []]
  split_ifs with h
  · subst h; rfl
  · rw [getD_mapIdx_of_lt _ _ c hc 0]

/-- Row lengths after the swap. -/
theorem Sq_swapRows {n : Nat} {A : List (List ℚ)} (hA : Sq n A) (i p : Nat)
    (hi : i < n) (hp : p < n) : Sq n (swapRows A i p) := by
  have hil : i < A.length := by rw [hA.1]; omega
  have hpl : p < A.length := by rw [hA.1]; omega
  unfold swapRows
  dsimp only
  apply Sq_of_getD (by rw [List.length_set, List.length_set]; exact hA.1)
  intro r hr
  by_cases h1 : r = p
  · subst h1
    rw [List.getD_eq_getElem?_getD, List.getElem?_set_self',
      List.getElem?_eq_getElem (by rw [List.length_set]; omega)]
    show (A.getD i []).length = n
    exact hA.row_length hi
  · rw [List.getD_eq_getElem?_getD, List.getElem?_set_ne (fun hc => h1 hc.symm)]
    by_cases h2 : r = i
    · subst h2
      rw [List.getElem?_set_self', List.getElem?_eq_getElem hil]
      show (A.getD p []).length = n
      exact hA.row_length hp
    · rw [List.getElem?_set_ne (fun hc => h2 hc.symm),
        ← List.getD_eq_getElem?_getD]
      exact hA.row_length hr

/-- Row lengths after scaling. -/
theorem Sq_scaleRow {n : Nat} {A : List (List ℚ)} (hA : Sq n A) (i : Nat)
    (c0 : ℚ) (hi : i < n) : Sq n (scaleRow A i c0) := by
  have hil : i < A.length := by rw [hA.1]; omega
  unfold scaleRow
  apply Sq_of_getD (by rw [List.length_set]; exact hA.1)
  intro r hr
  by_cases h : r = i
  · subst h
    rw [List.getD_eq_getElem?_getD, List.getElem?_set_self',
      List.getElem?_eq_getElem hil]
    show ((A.getD r []).map (fun a => a * c0)).length = n
    rw [List.length_map]
    exact hA.row_length hr
  · rw [List.getD_eq_getElem?_getD, List.getElem?_set_ne (fun hc => h hc.symm),
      ← List.getD_eq_getElem?_getD]
    exact hA.row_length hr

/-- Row lengths after elimination. -/
theorem Sq_elimRows {n : Nat} {A : List (List ℚ)} (hA : Sq n A)
    (f : Nat → ℚ) (i : Nat) : Sq n (elimRows f A i) := by
  unfold elimRows
  dsimp only
  apply Sq_of_getD (by rw [List.length_mapIdx]; exact hA.1)
  intro r hr
  rw [getD_mapIdx_of_lt _ _ r (by rw [hA.1]; omega) []]
  split_ifs with h
  · exact hA.row_length hr
  · rw [List.length_mapIdx]
    exact hA.row_length hr
end ForecastManager

namespace ForecastManager

/-- Swapping rows of the left factor swaps rows of the product. -/
theorem rel_swap {n : Nat} {M I A : List (List ℚ)} (hM : Sq n M)
    (hI : Sq n I) (hA : Sq n A) (hrel : matMul I M = A) (i p : Nat)
    (hi : i < n) (hp : p < n) :
    matMul (swapRows I i p) M = swapRows A i p := by
  apply sq_ext (Sq_matMul (Sq_swapRows hI i p hi hp) hM)
    (Sq_swapRows hA i p hi hp)
  intro r j hr hj
  rw [entry_matMul (Sq_swapRows hI i p hi hp) hM r j hr hj]
  rw [entry_swapRows A i p (by rw [hA.1]; omega) (by rw [hA.1]; omega) r j]
  rw [← hrel]
  have hr' : (if r = i then p else if r = p then i else r) < n := by
    split_ifs <;> omega
  rw [entry_matMul hI hM _ j hr' hj]
  apply Finset.sum_congr rfl
  intro k hk
  rw [entry_swapRows I i p (by rw [hI.1]; omega) (by rw [hI.1]; omega) r k]

/-- Scaling a row of the left factor scales that row of the product. -/
theorem rel_scale {n : Nat} {M I A : List (List ℚ)} (hM : Sq n M)
    (hI : Sq n I) (hA : Sq n A) (hrel : matMul I M = A) (i : Nat) (c0 : ℚ)
    (hi : i < n) :
    matMul (scaleRow I i c0) M = scaleRow A i c0 := by
  apply sq_ext (Sq_matMul (Sq_scaleRow hI i c0 hi) hM)
    (Sq_scaleRow hA i c0 hi)
  intro r j hr hj
  rw [entry_matMul (Sq_scaleRow hI i c0 hi) hM r j hr hj]
  rw [entry_scaleRow A i c0 r j (by rw [hA.1]; omega)]
  rw [← hrel, entry_matMul hI hM r j hr hj]
  by_cases h : r = i
  · subst h
    rw [if_pos rfl, Finset.sum_mul]
    apply Finset.sum_congr rfl
    intro k hk
    rw [entry_scaleRow I r c0 r k (by rw [hI.1]; omega), if_pos rfl]
    ring
  · rw [if_neg h]
    apply Finset.sum_congr rfl
    intro k hk
    rw [entry_scaleRow I i c0 r k (by rw [hI.1]; omega), if_neg h]

/-- Eliminating with a pivot row in the left factor acts the same way on the
product. -/
theorem rel_elim {n : Nat} {M I A : List (List ℚ)} (hM : Sq n M)
    (hI : Sq n I) (hA : Sq n A) (hrel : matMul I M = A) (i : Nat)
    (hi : i < n) (f : Nat → ℚ) :
    matMul (elimRows f I i) M = elimRows f A i := by
  apply sq_ext (Sq_matMul (Sq_elimRows hI f i) hM) (Sq_elimRows hA f i)
  intro r j hr hj
  rw [entry_matMul (Sq_elimRows hI f i) hM r j hr hj]
  rw [entry_elimRows A f i r j (by rw [hA.1]; omega)
    (by rw [hA.row_length hr]; omega)]
  rw [← hrel]
  by_cases h : r = i
  · subst h
    rw [if_pos rfl, entry_matMul hI hM r j hr hj]
    apply Finset.sum_congr rfl
    intro k hk
    rw [entry_elimRows I f r r k (by rw [hI.1]; omega)
      (by rw [hI.row_length hr]; exact Finset.mem_range.mp hk), if_pos rfl]
  · rw [if_neg h, entry_matMul hI hM r j hr hj,
      entry_matMul hI hM i j (by omega) hj]
    have hper : ∀ k ∈ Finset.range n,
        entry (elimRows f I i) r k * entry M k j
          = entry I r k * entry M k j
            - f r * (entry I i k * entry M k j) := fun k hk => by
      rw [entry_elimRows I f i r k (by rw [hI.1]; omega)
        (by rw [hI.row_length hr]; exact Finset.mem_range.mp hk), if_neg h]
      ring
    rw [Finset.sum_congr rfl hper, Finset.sum_sub_distrib, ← Finset.mul_sum]
end ForecastManager

namespace ForecastManager

/-- Invariant of the Gauss-Jordan loop: both matrices square, the work
matrix equals the accumulated row operations applied to M, and the first i
columns of the work matrix are unit columns. -/
def GJInv (M : List (List ℚ)) (n i : Nat) (A I : List (List ℚ)) : Prop :=
  Sq n A ∧ Sq n I ∧ matMul I M = A ∧
    ∀ r j, r < n → j < i → entry A r j = if r = j then 1 else 0

/-- The swap-scale-eliminate combination at a nonzero pivot extends the
invariant by one column. -/
theorem pivot_combo_preserves {M : List (List ℚ)} {n : Nat} (hM : Sq n M)
    (i p : Nat) (hi : i < n) (hp2 : p < n) (hp1 : i ≤ p)
    (A I : List (List ℚ)) (hsqA : Sq n A) (hsqI : Sq n I)
    (hrel : matMul I M = A)
    (hunit : ∀ r j, r < n → j < i → entry A r j = if r = j then 1 else 0)
    (hpne : entry A p i ≠ 0) :
    GJInv M n (i + 1)
      (elimRows (fun r => entry (scaleRow (swapRows A i p) i
          (1 / entry (swapRows A i p) i i)) r i)
        (scaleRow (swapRows A i p) i (1 / entry (swapRows A i p) i i)) i)
      (elimRows (fun r => entry (scaleRow (swapRows A i p) i
          (1 / entry (swapRows A i p) i i)) r i)
        (scaleRow (swapRows I i p) i (1 / entry (swapRows A i p) i i)) i) := by
  have hAl : A.length = n := hsqA.1
  have hIl : I.length = n := hsqI.1
  have hsqA1 : Sq n (swapRows A i p) := Sq_swapRows hsqA i p hi hp2
  have hsqI1 : Sq n (swapRows I i p) := Sq_swapRows hsqI i p hi hp2
  have hrel1 : matMul (swapRows I i p) M = swapRows A i p :=
    rel_swap hM hsqI hsqA hrel i p hi hp2
  have hunit1 : ∀ r j, r < n → j < i →
      entry (swapRows A i p) r j = if r = j then 1 else 0 := by
    intro r j hr hj
    rw [entry_swapRows A i p (by omega) (by omega) r j]
    by_cases h1 : r = i
    · rw [if_pos h1, hunit p j hp2 hj]
      have hpj : ¬(p = j) := by omega
      have hrj : ¬(r = j) := by omega
      rw [if_neg hpj, if_neg hrj]
    · rw [if_neg h1]
      by_cases h2 : r = p
      · rw [if_pos h2, hunit i j hi hj]
        have hij : ¬(i = j) := by omega
        have hrj : ¬(r = j) := by omega
        rw [if_neg hij, if_neg hrj]
      · rw [if_neg h2]
        exact hunit r j hr hj
  have hpivot_entry : entry (swapRows A i p) i i = entry A p i := by
    rw [entry_swapRows A i p (by omega) (by omega) i i, if_pos rfl]
  have hsqA2 : Sq n (scaleRow (swapRows A i p) i
      (1 / entry (swapRows A i p) i i)) := Sq_scaleRow hsqA1 i _ hi
  have hsqI2 : Sq n (scaleRow (swapRows I i p) i
      (1 / entry (swapRows A i p) i i)) := Sq_scaleRow hsqI1 i _ hi
  have hrel2 : matMul (scaleRow (swapRows I i p) i
      (1 / entry (swapRows A i p) i i)) M
      = scaleRow (swapRows A i p) i (1 / entry (swapRows A i p) i i) :=
    rel_scale hM hsqI1 hsqA1 hrel1 i _ hi
  have hunit2 : ∀ r j, r < n → j < i →
      entry (scaleRow (swapRows A i p) i (1 / entry (swapRows A i p) i i)) r j
        = if r = j then 1 else 0 := by
    intro r j hr hj
    rw [entry_scaleRow _ i _ r j (by rw [hsqA1.1]; omega)]
    by_cases h1 : r = i
    · rw [if_pos h1, hunit1 r j hr hj]
      have hrj : ¬(r = j) := by omega
      simp only [if_neg hrj]
      ring
    · rw [if_neg h1]
      exact hunit1 r j hr hj
  have hone : entry (scaleRow (swapRows A i p) i
      (1 / entry (swapRows A i p) i i)) i i = 1 := by
    rw [entry_scaleRow _ i _ i i (by rw [hsqA1.1]; omega), if_pos rfl,
      hpivot_entry]
    field_simp
  refine ⟨Sq_elimRows hsqA2 _ i, Sq_elimRows hsqI2 _ i,
    rel_elim hM hsqI2 hsqA2 hrel2 i hi _, ?_⟩
  intro r j hr hj
  by_cases hji : j < i
  · rw [entry_elimRows _ _ i r j (by rw [hsqA2.1]; omega)
      (by rw [hsqA2.row_length hr]; omega)]
    by_cases h1 : r = i
    · rw [if_pos h1, h1]
      exact hunit2 i j hi hji
    · rw [if_neg h1, hunit2 r j hr hji, hunit2 i j hi hji]
      have hij : ¬(i = j) := by omega
      simp only [if_neg hij]
      ring
  · have hj' : j = i := by omega
    subst hj'
    rw [entry_elimRows _ _ j r j (by rw [hsqA2.1]; omega)
      (by rw [hsqA2.row_length hr]; omega)]
    by_cases h1 : r = j
    · rw [if_pos h1, hone, if_pos h1]
    · rw [if_neg h1, hone, if_neg h1]
      simp

/-- One successful pivot step extends the invariant by one column. -/
theorem invStep_preserves {M : List (List ℚ)} {n : Nat} (hM : Sq n M)
    (i : Nat) (hi : i < n) (A I A2 I2 : List (List ℚ))
    (hinv : GJInv M n i A I)
    (hstep : invStep n i (A, I) = Except.ok (A2, I2)) :
    GJInv M n (i + 1) A2 I2 := by
  obtain ⟨hsqA, hsqI, hrel, hunit⟩ := hinv
  obtain ⟨⟨hp1, hp2⟩, hmax⟩ := pivotSearch_spec A i n hi
  dsimp only [invStep] at hstep
  split_ifs at hstep with hpiv
  have hpne : entry A (pivotSearch A i n) i ≠ 0 := by
    intro hc
    rw [hc] at hpiv
    norm_num at hpiv
  cases hstep
  exact pivot_combo_preserves hM i (pivotSearch A i n) hi hp2 hp1 A I
    hsqA hsqI hrel hunit hpne

end ForecastManager

namespace ForecastManager

/-- Running the pivot loop to completion from a valid invariant state yields
a left inverse of M. -/
theorem invGo_inverse {M : List (List ℚ)} {n : Nat} (hM : Sq n M) :
    ∀ (fuel i : Nat) (A I N : List (List ℚ)), fuel + i = n →
    GJInv M n i A I → invGo n fuel i (A, I) = Except.ok N →
    matMul N M = idMat n := by
  intro fuel
  induction fuel with
  | zero =>
    intro i A I N hfi hinv hgo
    obtain ⟨hsqA, hsqI, hrel, hunit⟩ := hinv
    dsimp only [invGo] at hgo
    cases hgo
    have hA : A = idMat n := by
      apply sq_ext hsqA (Sq_idMat n)
      intro r j hr hj
      rw [hunit r j hr (by omega), entry_idMat n r j hr hj]
    rw [hrel, hA]
  | succ fuel ih =>
    intro i A I N hfi hinv hgo
    rw [invGo_succ] at hgo
    cases hs : invStep n i (A, I) with
    | error e =>
      rw [hs] at hgo
      cases hgo
    | ok AI2 =>
      rw [hs] at hgo
      exact ih (i + 1) AI2.fst AI2.snd N (by omega)
        (invStep_preserves hM i (by omega) A I AI2.fst AI2.snd hinv hs) hgo

end ForecastManager

namespace ForecastManager

/-- Gauss-Jordan correctness of _invSym: a successful inversion of a square
matrix returns a left inverse (hence, the matrix inverse). -/
theorem invSym_left_inverse (M N : List (List ℚ)) (hM : Sq M.length M)
    (h : invSym M = Except.ok N) : matMul N M = idMat M.length := by
  dsimp only [invSym] at h
  have hid : M.map (fun r => r.map id) = M := by simp
  rw [hid] at h
  exact invGo_inverse hM M.length 0 M (idMat M.length) N (by omega)
    ⟨hM, Sq_idMat _, matMul_idMat_left hM,
      fun r j hr hj => absurd hj (Nat.not_lt_zero j)⟩ h

end ForecastManager

namespace ForecastManager

/-- Shape of the normal matrix: with a nonempty feature matrix of uniform
row length, XtX is square of that dimension. -/
theorem Sq_trainXTX (sqrtF : ℚ → ℚ) (ds : Dataset) (hne : ds.x ≠ [])
    (hrows : ∀ row ∈ ds.x, row.length = (ds.x.headD []).length) :
    Sq ((ds.x.headD []).length) (trainXTX sqrtF ds) ∧
    (trainXTX sqrtF ds).length = (ds.x.headD []).length := by
  obtain ⟨x0, rest, hx⟩ := List.exists_cons_of_ne_nil hne
  have hxh : (stdX sqrtF ds.x).headD []
      = x0.mapIdx (fun j v => (v - (muOf ds.x).getD j 0) /
          (sigOf sqrtF ds.x).getD j 0) := by
    rw [show stdX sqrtF ds.x = ds.x.map (fun r => r.mapIdx (fun j v =>
        (v - (muOf ds.x).getD j 0) / (sigOf sqrtF ds.x).getD j 0)) from rfl, hx]
    rfl
  have hx0len : x0.length = (ds.x.headD []).length := by
    rw [hx]
    rfl
  have hcols : ((stdX sqrtF ds.x).headD []).length = (ds.x.headD []).length := by
    rw [hxh, List.length_mapIdx, hx0len]
  have hlen : (trainXTX sqrtF ds).length = (ds.x.headD []).length := by
    unfold trainXTX matMul transpose
    rw [List.length_map, List.length_map, List.length_range, hcols]
  refine ⟨⟨hlen, ?_⟩, hlen⟩
  intro row hrow
  unfold trainXTX matMul at hrow
  obtain ⟨r0, hr0, hre⟩ := List.mem_map.mp hrow
  rw [← hre, List.length_map, List.length_range, hcols]

/-- The column variance of a constant column is zero. -/
theorem colVar_const (X : List (List ℚ)) (hne : X ≠ []) (j : Nat)
    (hconst : ∀ r1 ∈ X, ∀ r2 ∈ X, r1.getD j 0 = r2.getD j 0) :
    colVar X j = 0 := by
  obtain ⟨x0, rest, hx⟩ := List.exists_cons_of_ne_nil hne
  have hcol : ∀ b ∈ X.map (fun r => r.getD j 0), b = x0.getD j 0 := by
    intro b hb
    obtain ⟨r0, hr0, hre⟩ := List.mem_map.mp hb
    rw [← hre]
    exact hconst r0 hr0 x0 (by rw [hx]; exact List.mem_cons_self x0 rest)
  have hrep : X.map (fun r => r.getD j 0)
      = List.replicate (X.map (fun r => r.getD j 0)).length (x0.getD j 0) :=
    List.eq_replicate_iff.mpr ⟨rfl, hcol⟩
  have hlen0 : (X.map (fun r => r.getD j 0)).length ≠ 0 := by
    rw [List.length_map, hx]
    simp
  have hmean : colMean X j = x0.getD j 0 := by
    dsimp only [colMean]
    rw [hrep, List.sum_replicate, List.length_replicate, nsmul_eq_mul]
    have hcast : ((X.map (fun r => r.getD j 0)).length : ℚ) ≠ 0 := by
      exact_mod_cast hlen0
    have hXlen : (X.length : ℚ) ≠ 0 := by
      rw [hx]
      simp
      exact_mod_cast Nat.succ_ne_zero rest.length
    field_simp
  dsimp only [colVar]
  rw [hmean]
  have hzero : (X.map (fun r => r.getD j 0)).map
      (fun b => (b - x0.getD j 0) ^ 2) =
      List.replicate (X.map (fun r => r.getD j 0)).length 0 := by
    apply List.eq_replicate_iff.mpr
    refine ⟨by rw [List.length_map], ?_⟩
    intro b hb
    obtain ⟨b0, hb0, hbe⟩ := List.mem_map.mp hb
    rw [← hbe, hcol b0 hb0]
    ring
  rw [hzero, List.sum_replicate, smul_zero, zero_div]

end ForecastManager

/-- Claim C6: in the linear fallback of the Model Trainer, the stored
standardisation parameters are the per-column means and the sample standard
deviations with denominator n-1 floored to 1 on constant columns; the weight
vector solves the standardized normal equations through a verified inverse
of XtX (the closed-form ordinary-least-squares solution); and inference
standardises its input with the training parameters, applies w, and
un-standardises the scalar output. -/
theorem C6_linear_trainer (sqrtF : ℚ → ℚ)
    (hsqrt : ∀ x : ℚ, 0 ≤ x → (sqrtF x = 0 ↔ x = 0))
    (ds : Dataset) (model : LinModel) (hne : ds.x ≠ [])
    (hrows : ∀ row ∈ ds.x, row.length = (ds.x.headD []).length)
    (h : trainModelLin sqrtF ds = Except.ok model) :
    (model.mu = muOf ds.x ∧ model.sig = sigOf sqrtF ds.x ∧
      model.yMu = yMuOf ds.y ∧ model.ySig = ySigOf sqrtF ds.y) ∧
    (∀ j, j < (ds.x.headD []).length →
      (∀ r1 ∈ ds.x, ∀ r2 ∈ ds.x, r1.getD j 0 = r2.getD j 0) →
      (sigOf sqrtF ds.x).getD j 0 = 1) ∧
    (∃ N, invSym (trainXTX sqrtF ds) = Except.ok N ∧
      matMul N (trainXTX sqrtF ds) = idMat ((ds.x.headD []).length) ∧
      model.w = matVec N (trainXTy sqrtF ds)) ∧
    (∀ row : List ℚ, inferLin model row
      = (∑ j in Finset.range row.length,
          ((row.getD j 0 - model.mu.getD j 0) / model.sig.getD j 0)
            * model.w.getD j 0) * model.ySig + model.yMu) := by
  obtain ⟨hSq, hlen⟩ := ForecastManager.Sq_trainXTX sqrtF ds hne hrows
  refine ⟨ForecastManager.trainModelLin_sig sqrtF ds model h, ?_, ?_, ?_⟩
  · intro j hj hconst
    unfold sigOf
    rw [ForecastManager.getD_map_range _ _ j hj]
    rw [ForecastManager.colVar_const ds.x hne j hconst]
    rw [(hsqrt 0 (le_refl 0)).mpr rfl]
    simp [sigFloor]
  · dsimp only [trainModelLin] at h
    cases hs : invSym (trainXTX sqrtF ds) with
    | error e =>
      rw [hs] at h
      cases h
    | ok N =>
      rw [hs] at h
      cases h
      refine ⟨N, rfl, ?_, rfl⟩
      have hinv := ForecastManager.invSym_left_inverse (trainXTX sqrtF ds) N
        (by rw [hlen]; exact hSq) hs
      rw [hlen] at hinv
      exact hinv
  · intro row
    unfold inferLin dotRW
    dsimp only
    rw [List.length_mapIdx]
    have hsum : ((List.range row.length).map (fun j =>
        (row.mapIdx (fun j v => (v - model.mu.getD j 0) / model.sig.getD j 0)).getD j 0
          * model.w.getD j 0)).sum
        = ∑ j in Finset.range row.length,
            ((row.getD j 0 - model.mu.getD j 0) / model.sig.getD j 0)
              * model.w.getD j 0 := by
      show (∑ j in Finset.range row.length, _) = _
      apply Finset.sum_congr rfl
      intro k hk
      rw [ForecastManager.getD_mapIdx_of_lt row _ k (Finset.mem_range.mp hk) 0]
    rw [hsum]

/-- Witness for C6 on a concrete one-column two-sample dataset. -/
theorem C6_linear_trainer_witness :
    ((LinModel.mk [1/2] [1/2] (1/2) (1/2) [1] 0).mu
        = muOf (Dataset.mk [[0], [1]] [0, 1]).x ∧
      (LinModel.mk [1/2] [1/2] (1/2) (1/2) [1] 0).sig
        = sigOf idSqrt (Dataset.mk [[0], [1]] [0, 1]).x ∧
      (LinModel.mk [1/2] [1/2] (1/2) (1/2) [1] 0).yMu
        = yMuOf (Dataset.mk [[0], [1]] [0, 1]).y ∧
      (LinModel.mk [1/2] [1/2] (1/2) (1/2) [1] 0).ySig
        = ySigOf idSqrt (Dataset.mk [[0], [1]] [0, 1]).y) ∧
    (∀ j, j < ((Dataset.mk [[0], [1]] [0, 1]).x.headD []).length →
      (∀ r1 ∈ (Dataset.mk [[0], [1]] [0, 1]).x,
        ∀ r2 ∈ (Dataset.mk [[0], [1]] [0, 1]).x, r1.getD j 0 = r2.getD j 0) →
      (sigOf idSqrt (Dataset.mk [[0], [1]] [0, 1]).x).getD j 0 = 1) ∧
    (∃ N, invSym (trainXTX idSqrt (Dataset.mk [[0], [1]] [0, 1]))
        = Except.ok N ∧
      matMul N (trainXTX idSqrt (Dataset.mk [[0], [1]] [0, 1]))
        = idMat (((Dataset.mk [[0], [1]] [0, 1]).x.headD []).length) ∧
      (LinModel.mk [1/2] [1/2] (1/2) (1/2) [1] 0).w
        = matVec N (trainXTy idSqrt (Dataset.mk [[0], [1]] [0, 1]))) ∧
    (∀ row : List ℚ, inferLin (LinModel.mk [1/2] [1/2] (1/2) (1/2) [1] 0) row
      = (∑ j in Finset.range row.length,
          ((row.getD j 0 - (LinModel.mk [1/2] [1/2] (1/2) (1/2) [1] 0).mu.getD j 0)
              / (LinModel.mk [1/2] [1/2] (1/2) (1/2) [1] 0).sig.getD j 0)
            * (LinModel.mk [1/2] [1/2] (1/2) (1/2) [1] 0).w.getD j 0)
          * (LinModel.mk [1/2] [1/2] (1/2) (1/2) [1] 0).ySig
          + (LinModel.mk [1/2] [1/2] (1/2) (1/2) [1] 0).yMu) :=
  C6_linear_trainer idSqrt (fun x _ => Iff.rfl) (Dataset.mk [[0], [1]] [0, 1])
    (LinModel.mk [1/2] [1/2] (1/2) (1/2) [1] 0) (by simp)
    (by
      intro row hrow
      rcases List.mem_cons.mp hrow with hr | hr
      · subst hr; rfl
      · rcases List.mem_cons.mp hr with hr2 | hr2
        · subst hr2; rfl
        · cases hr2)
    (by with_unfolding_all rfl)
